import Mathlib

/-!
# Session API of the wellness platform

A shallow embedding of `backend/controllers/sessionController.js` and of the
schema in `backend/models/Session.js`.

* JavaScript strings are Lean strings; `trim`, `split(',')` and the schema's
  URL pattern are written out on the characters.
* The collection is a list of documents in insertion order; the Mongoose calls
  used by the controller (`find`, `findOne`, `findOneAndUpdate`, `save`) are
  functions on that list that either return or throw (`Except`).
* A handler is a function from the request (caller identity, route parameter,
  body) and the store to a response, and for the two writing handlers to a
  response and the new store.  The `try { ... } catch` of each handler becomes a
  match on the `Except` result of the storage call.
-/

namespace Arvyax

/-! ## JavaScript string primitives -/

/-- White space and line terminators, the characters removed by
`String.prototype.trim`. -/
def isJsWhiteSpace (c : Char) : Bool :=
  c.toNat = 0x09 || c.toNat = 0x0A || c.toNat = 0x0B || c.toNat = 0x0C ||
  c.toNat = 0x0D || c.toNat = 0x20 || c.toNat = 0xA0 || c.toNat = 0x1680 ||
  (0x2000 ≤ c.toNat && c.toNat ≤ 0x200A) || c.toNat = 0x2028 ||
  c.toNat = 0x2029 || c.toNat = 0x202F || c.toNat = 0x205F ||
  c.toNat = 0x3000 || c.toNat = 0xFEFF

/-- Line terminators, the characters the pattern `.` does not match. -/
def isLineTerminator (c : Char) : Bool :=
  c.toNat = 0x0A || c.toNat = 0x0D || c.toNat = 0x2028 || c.toNat = 0x2029

/-- The characters of `s.trim()`. -/
def trimChars (cs : List Char) : List Char :=
  ((cs.dropWhile isJsWhiteSpace).reverse.dropWhile isJsWhiteSpace).reverse

/-- The string `s.trim()`. -/
def jsTrim (s : String) : String := ⟨trimChars s.data⟩

/-- The pieces of `s.split(',')`, on characters: the empty string gives one
empty piece, and every comma starts a new piece. -/
def splitComma : List Char → List (List Char)
  | [] => [[]]
  | c :: cs =>
    if c = ',' then [] :: splitComma cs
    else
      match splitComma cs with
      | [] => [[c]]
      | p :: ps => (c :: p) :: ps

/-- The array `s.split(',')`. -/
def jsSplitComma (s : String) : List String := (splitComma s.data).map String.mk

/-- The value `s.length`: the number of UTF-16 code units. -/
def jsLength (s : String) : Nat :=
  (s.data.map fun c => if c.toNat < 0x10000 then 1 else 2).sum

/-- Truthiness of an optional string value: `undefined` and `''` are falsy. -/
def truthy : Option String → Bool
  | none => false
  | some s => s != ""

/-- Pattern `/.+/` at the start of the remaining input: one character that is not a
line terminator. -/
def dotPlus : List Char → Bool
  | [] => false
  | c :: _ => !isLineTerminator c

/-- The test `/^https?:\/\/.+/.test(v)`. -/
def testHttpUrl (v : String) : Bool :=
  ("http://".data.isPrefixOf v.data && dotPlus (v.data.drop 7)) ||
  ("https://".data.isPrefixOf v.data && dotPlus (v.data.drop 8))

/-! ## Documents -/

/-- An ObjectId, as a number. -/
abbrev ObjectId := Nat

/-- Value of a hexadecimal digit. -/
def hexVal (c : Char) : Option Nat :=
  if 48 ≤ c.toNat ∧ c.toNat ≤ 57 then some (c.toNat - 48)
  else if 97 ≤ c.toNat ∧ c.toNat ≤ 102 then some (c.toNat - 87)
  else if 65 ≤ c.toNat ∧ c.toNat ≤ 70 then some (c.toNat - 55)
  else none

/-- Value of a string of hexadecimal digits, most significant first. -/
def hexNat : List Char → Nat → Option Nat
  | [], acc => some acc
  | c :: cs, acc =>
    match hexVal c with
    | none => none
    | some d => hexNat cs (16 * acc + d)

/-- Cast of a string to an ObjectId, as Mongoose does for the `_id` of a query
filter: a string of 24 hexadecimal digits is the id it writes, any other
string is a cast error (`none`), which the query throws. -/
def castObjectId (s : String) : Option ObjectId :=
  if s.data.length = 24 then hexNat s.data 0 else none

/-- A stored session document (`sessionSchema`, with `timestamps: true`). -/
structure Session where
  _id : ObjectId
  user_id : ObjectId
  title : String
  tags : List String
  json_file_url : String
  status : String
  createdAt : Nat
  updatedAt : Nat
deriving DecidableEq, Repr

/-- Modelled from the spec: the User model (`models/User.js`) is not among the
sources.  A user has an identifier and an email, the public identifier that
`populate('user_id', 'email')` shows; `password` stands for the rest of the
record. -/
structure User where
  _id : ObjectId
  email : String
  password : String
deriving DecidableEq, Repr

/-- What `populate('user_id', 'email')` puts in place of the owner
reference: the identifier and the email of the user. -/
structure PopulatedUser where
  _id : ObjectId
  email : String
deriving DecidableEq, Repr

/-- A session whose owner reference has been populated; `none` is the `null`
Mongoose writes when no user has the referenced id. -/
structure PublicSession where
  _id : ObjectId
  user_id : Option PopulatedUser
  title : String
  tags : List String
  json_file_url : String
  status : String
  createdAt : Nat
  updatedAt : Nat
deriving DecidableEq, Repr

/-- The database: the sessions collection in insertion order, and the users
collection. -/
structure Store where
  sessions : List Session
  users : List User
deriving DecidableEq, Repr

/-- What the runtime and the environment give to one request: the clock, the
ObjectId generated for a new document, the error the storage call raises (if
it fails), and `String.prototype.toLowerCase`. -/
structure Env where
  now : Nat
  newId : ObjectId
  fault : Option String
  toLowerCase : String → String

/-- Errors thrown by a storage call. -/
inductive DbError where
  | fault (msg : String)
  | castError (path : String) (value : String)
  | validationError (path : String) (msg : String)
  | duplicateKey (id : ObjectId)
deriving DecidableEq, Repr

/-- The JSON body of a write request, with the four fields the handlers read;
a field that is absent is `none`. -/
structure Body where
  id : Option String
  title : Option String
  tags : Option String
  json_file_url : Option String
deriving DecidableEq, Repr

/-- Response bodies. -/
inductive ResBody where
  | message (message : String)
  | publicSessions (sessions : List PublicSession)
  | sessions (sessions : List Session)
  | session (session : Session)
  | saved (message : String) (session : Session)
deriving DecidableEq, Repr

/-- An HTTP response: `res.status(n).json(body)`; `res.json(body)` has status
200. -/
structure Response where
  status : Nat
  body : ResBody
deriving DecidableEq, Repr

/-! ## The Session model: setters, validators and the storage calls -/

/-- The four fields both writing handlers hand to the model
(`{ title, tags, json_file_url, status }`). -/
structure Fields where
  title : String
  tags : List String
  json_file_url : String
  status : String
deriving DecidableEq, Repr

/-- Setters of one element of `tags` (`trim: true, lowercase: true`). -/
def castTag (env : Env) (t : String) : String := jsTrim (env.toLowerCase t)

/-- The validator of `json_file_url`: `!v || /^https?:\/\/.+/.test(v)`. -/
def urlValidator (v : String) : Bool := v == "" || testHttpUrl v

/-- Query `.sort({ key: -1 })`: descending on `key`, documents with equal keys stay
in the order of the collection. -/
def sortDesc (key : Session → Nat) (l : List Session) : List Session :=
  l.insertionSort fun a b => key b ≤ key a

/-- Query `Session.find(filter)`. -/
def Session.find (env : Env) (st : Store) (filter : Session → Bool) :
    Except DbError (List Session) :=
  match env.fault with
  | some e => .error (.fault e)
  | none => .ok (st.sessions.filter filter)

/-- Population `.populate('user_id', 'email')` of one document. -/
def populate (users : List User) (s : Session) : PublicSession :=
  { _id := s._id
    user_id := (users.find? fun u => u._id == s.user_id).map
      fun u => { _id := u._id, email := u.email }
    title := s.title
    tags := s.tags
    json_file_url := s.json_file_url
    status := s.status
    createdAt := s.createdAt
    updatedAt := s.updatedAt }

/-- Query `Session.findOne({ _id: id, user_id: user })`: the first document with
that id and that owner, `none` (null) when there is none; an id that does not
cast to an ObjectId throws. -/
def Session.findOne (env : Env) (st : Store) (id : String) (user : ObjectId) :
    Except DbError (Option Session) :=
  match castObjectId id with
  | none => .error (.castError "_id" id)
  | some oid =>
    match env.fault with
    | some e => .error (.fault e)
    | none => .ok (st.sessions.find? fun s => s._id == oid && s.user_id == user)

/-- The document after the update `f`: the setters of the schema are applied
to the new values, `updatedAt` is refreshed, every other path is kept. -/
def applyUpdate (env : Env) (f : Fields) (s : Session) : Session :=
  { s with
    title := jsTrim f.title
    tags := f.tags.map (castTag env)
    json_file_url := jsTrim f.json_file_url
    status := f.status
    updatedAt := env.now }

/-- Replace the first document that satisfies `p` by its image under `g`;
gives the new document and the new collection. -/
def updateFirst (p : Session → Bool) (g : Session → Session) :
    List Session → Option (Session × List Session)
  | [] => none
  | s :: rest =>
    if p s then some (g s, g s :: rest)
    else (updateFirst p g rest).map fun r => (r.1, s :: r.2)

/-- Query `Session.findOneAndUpdate({ _id: id, user_id: user }, f, { new: true })`:
no validators run; gives the updated document, or `none` (null) and the same
store when no document matches. -/
def Session.findOneAndUpdate (env : Env) (st : Store) (id : String)
    (user : ObjectId) (f : Fields) : Except DbError (Option Session × Store) :=
  match castObjectId id with
  | none => .error (.castError "_id" id)
  | some oid =>
    match env.fault with
    | some e => .error (.fault e)
    | none =>
      match updateFirst (fun s => s._id == oid && s.user_id == user)
          (applyUpdate env f) st.sessions with
      | none => .ok (none, st)
      | some (s, l) => .ok (some s, { st with sessions := l })

/-- Constructor `new Session({ user_id: user, ...f })`: a fresh id, the setters applied. -/
def Session.new (env : Env) (user : ObjectId) (f : Fields) : Session :=
  { _id := env.newId
    user_id := user
    title := jsTrim f.title
    tags := f.tags.map (castTag env)
    json_file_url := jsTrim f.json_file_url
    status := f.status
    createdAt := env.now
    updatedAt := env.now }

/-- The validators `save()` runs on a new document. -/
def Session.validate (doc : Session) : Except DbError Unit :=
  if doc.title = "" then .error (.validationError "title" "Title is required")
  else if jsLength doc.title < 1 then
    .error (.validationError "title" "Title cannot be empty")
  else if 200 < jsLength doc.title then
    .error (.validationError "title" "Title too long")
  else if !urlValidator doc.json_file_url then
    .error (.validationError "json_file_url" "Must be a valid HTTP/HTTPS URL")
  else if doc.status ≠ "draft" ∧ doc.status ≠ "published" then
    .error (.validationError "status" "is not a valid enum value")
  else .ok ()

/-- Call `session.save()` of a new document: validation, then the insert, which
fails when the id is already in the collection. -/
def Session.save (env : Env) (st : Store) (doc : Session) :
    Except DbError (Session × Store) :=
  match Session.validate doc with
  | .error e => .error e
  | .ok () =>
    match env.fault with
    | some e => .error (.fault e)
    | none =>
      if st.sessions.any (fun s => s._id == doc._id) then
        .error (.duplicateKey doc._id)
      else .ok (doc, { st with sessions := st.sessions ++ [doc] })

/-! ## The controller -/

/-- Expression `tags ? tags.split(',').map(tag => tag.trim()).filter(tag => tag) : []`. -/
def parseTags (tags : Option String) : List String :=
  match tags with
  | none => []
  | some t =>
    if t = "" then []
    else ((jsSplitComma t).map jsTrim).filter fun tag => tag != ""

/-- Expression `json_file_url || ''`. -/
def urlOrEmpty (json_file_url : Option String) : String :=
  match json_file_url with
  | none => ""
  | some u => if u = "" then "" else u

/-- The object literal both branches of a writing handler build from the
body. -/
def fieldsOf (body : Body) (title : String) (status : String) : Fields :=
  { title := jsTrim title
    tags := parseTags body.tags
    json_file_url := urlOrEmpty body.json_file_url
    status := status }

/-- Handler `getPublicSessions`. -/
def getPublicSessions (env : Env) (st : Store) : Response :=
  match Session.find env st (fun s => s.status == "published") with
  | .ok sessions =>
    ⟨200, .publicSessions ((sortDesc (·.createdAt) sessions).map (populate st.users))⟩
  | .error _ => ⟨500, .message "Failed to load sessions"⟩

/-- Handler `getUserSessions`; `user` is `req.user._id`, `none` when the request
carries no identity. -/
def getUserSessions (env : Env) (st : Store) (user : Option ObjectId) : Response :=
  match user with
  | none => ⟨401, .message "User not authenticated"⟩
  | some uid =>
    match Session.find env st (fun s => s.user_id == uid) with
    | .ok sessions => ⟨200, .sessions (sortDesc (·.updatedAt) sessions)⟩
    | .error _ => ⟨500, .message "Failed to load your sessions"⟩

/-- Handler `getUserSession`; `id` is `req.params.id`. -/
def getUserSession (env : Env) (st : Store) (user : Option ObjectId) (id : String) :
    Response :=
  match user with
  | none => ⟨401, .message "User not authenticated"⟩
  | some uid =>
    match Session.findOne env st id uid with
    | .ok none => ⟨404, .message "Session not found"⟩
    | .ok (some session) => ⟨200, .session session⟩
    | .error _ => ⟨500, .message "Server error"⟩

/-- The body shared by `saveDraft` and `publishSession`, which differ only in
the status they write and in their two messages. -/
def writeSession (status okMessage failMessage : String) (env : Env) (st : Store)
    (user : Option ObjectId) (body : Body) : Response × Store :=
  match user with
  | none => (⟨401, .message "User not authenticated"⟩, st)
  | some uid =>
    match body.title with
    | none => (⟨400, .message "Title is required"⟩, st)
    | some title =>
      if title = "" ∨ jsTrim title = "" then
        (⟨400, .message "Title is required"⟩, st)
      else
        match body.id with
        | some id =>
          if id = "" then
            match Session.save env st (Session.new env uid (fieldsOf body title status)) with
            | .ok (session, st') => (⟨200, .saved okMessage session⟩, st')
            | .error _ => (⟨500, .message failMessage⟩, st)
          else
            match Session.findOneAndUpdate env st id uid (fieldsOf body title status) with
            | .ok (none, _) =>
              (⟨404, .message "Session not found or unauthorized"⟩, st)
            | .ok (some session, st') => (⟨200, .saved okMessage session⟩, st')
            | .error _ => (⟨500, .message failMessage⟩, st)
        | none =>
          match Session.save env st (Session.new env uid (fieldsOf body title status)) with
          | .ok (session, st') => (⟨200, .saved okMessage session⟩, st')
          | .error _ => (⟨500, .message failMessage⟩, st)

/-- Handler `saveDraft`. -/
def saveDraft (env : Env) (st : Store) (user : Option ObjectId) (body : Body) :
    Response × Store :=
  writeSession "draft" "Draft saved successfully" "Failed to save draft" env st user body

/-- Handler `publishSession`. -/
def publishSession (env : Env) (st : Store) (user : Option ObjectId) (body : Body) :
    Response × Store :=
  writeSession "published" "Session published successfully"
    "Failed to publish session" env st user body

/-- A session that caller `c` may see: it is not a draft, or `c` owns it. -/
def visibleTo (c : Option ObjectId) (s : Session) : Bool :=
  s.status != "draft" || c == some s.user_id

/-- No two stored sessions share an id (the unique index on `_id`). -/
def Store.idsUnique (st : Store) : Prop := (st.sessions.map (·._id)).Nodup

instance (st : Store) : Decidable st.idsUnique := by
  unfold Store.idsUnique; infer_instance

/-! ## Concrete data for the worked examples -/

/-- Lower-casing of the ASCII letters, the instance of `toLowerCase` used in
the worked examples. -/
def asciiLower (s : String) : String := ⟨s.data.map Char.toLower⟩

/-- An environment in which the storage works. -/
def exEnv : Env := { now := 100, newId := 7, fault := none, toLowerCase := asciiLower }

/-- A published session of user 10. -/
def exPublished : Session :=
  { _id := 1, user_id := 10, title := "Morning Yoga", tags := ["yoga", "morning"],
    json_file_url := "https://host/m.json", status := "published",
    createdAt := 10, updatedAt := 50 }

/-- A draft of user 20. -/
def exDraft : Session :=
  { _id := 2, user_id := 20, title := "Evening Calm", tags := [],
    json_file_url := "", status := "draft", createdAt := 20, updatedAt := 30 }

/-- A later published session of user 20. -/
def exLater : Session :=
  { _id := 3, user_id := 20, title := "Breathing", tags := ["breath"],
    json_file_url := "", status := "published", createdAt := 30, updatedAt := 40 }

/-- Two users. -/
def exUsers : List User :=
  [{ _id := 10, email := "a@x.org", password := "pa" },
   { _id := 20, email := "b@x.org", password := "pb" }]

/-- A store with the three sessions. -/
def exStore : Store := { sessions := [exPublished, exDraft, exLater], users := exUsers }

/-- The same store without the draft of user 20. -/
def exStoreNoDraft : Store := { sessions := [exPublished, exLater], users := exUsers }

/-- A title of 201 letters. -/
def exLongTitle : String := ⟨List.replicate 201 'a'⟩

/-- The collection in which the session with id `oid` is replaced by `s'`. -/
def replaceById (oid : ObjectId) (s' : Session) (l : List Session) : List Session :=
  l.map fun t => if t._id = oid then s' else t

/-- A call of one of the two writing handlers. -/
inductive Call where
  | saveDraft (env : Env) (user : Option ObjectId) (body : Body)
  | publishSession (env : Env) (user : Option ObjectId) (body : Body)

/-- The store after a call. -/
def Call.run (st : Store) : Call → Store
  | .saveDraft env user body => (Arvyax.saveDraft env st user body).2
  | .publishSession env user body => (Arvyax.publishSession env st user body).2

/-- The store after a sequence of calls. -/
def runCalls (st : Store) (calls : List Call) : Store := calls.foldl Call.run st

/-- The stores reachable from an empty sessions collection by a sequence of
`saveDraft` and `publishSession` calls. -/
def Reachable (st : Store) : Prop :=
  ∃ (users : List User) (calls : List Call), st = runCalls ⟨[], users⟩ calls

/-- A store reached by two calls: user 10 creates a draft, then publishes
it. -/
def exReached : Store :=
  runCalls ⟨[], exUsers⟩
    [.saveDraft exEnv (some 10) ⟨none, some "Morning Yoga", some "yoga, morning", some ""⟩,
     .publishSession { exEnv with now := 200 } (some 10)
       ⟨some "000000000000000000000007", some "Morning Yoga", some "yoga, morning",
         some "https://host/m.json"⟩]

/-- An environment in which the storage call fails. -/
def exFailEnv : Env :=
  { now := 100, newId := 7, fault := some "ECONNREFUSED 127.0.0.1:27017",
    toLowerCase := asciiLower }

/-- The store reached when user 10 creates a draft and then saves it again,
by id, with the URL 'ftp://x'. -/
def exBadUrlStore : Store :=
  runCalls ⟨[], exUsers⟩
    [.saveDraft exEnv (some 10) ⟨none, some "T", none, some ""⟩,
     .saveDraft { exEnv with now := 200 } (some 10)
       ⟨some "000000000000000000000007", some "T", none, some "ftp://x"⟩]

/-- The store reached when user 10 creates a draft and then saves it again,
by id, with a title of 201 letters. -/
def exLongTitleStore : Store :=
  runCalls ⟨[], exUsers⟩
    [.saveDraft exEnv (some 10) ⟨none, some "T", none, some ""⟩,
     .saveDraft { exEnv with now := 200 } (some 10)
       ⟨some "000000000000000000000007", some exLongTitle, none, some ""⟩]

/-- The body the editor sends when it saves a new session titled 'T': no id,
and the three form fields. -/
def exNewBody : Body := ⟨none, some "T", some "", some ""⟩

/-- The store after the editor has saved the new session once. -/
def exSavedOnce : Store :=
  runCalls ⟨[], exUsers⟩ [.saveDraft exEnv (some 10) exNewBody]

/-- The store after the editor has sent the same save a second time, five
ticks later; the second request gets its own generated id. -/
def exSavedTwice : Store :=
  runCalls ⟨[], exUsers⟩
    [.saveDraft exEnv (some 10) exNewBody,
     .saveDraft { exEnv with now := 105, newId := 8 } (some 10) exNewBody]

/-- A session with its `updatedAt` erased, to compare stores up to that
field. -/
def eraseUpdatedAt (s : Session) : Session := { s with updatedAt := 0 }

/-- The published session of user 10 after that user has saved it as a draft
with a body that has a title only. -/
def exResaved : Session :=
  { exPublished with tags := [], json_file_url := "", status := "draft", updatedAt := 100 }

/-- The environment of a call. -/
def Call.env : Call → Env
  | .saveDraft env _ _ => env
  | .publishSession env _ _ => env

/-- The stores reachable from an empty sessions collection by calls served by
a runtime whose `toLowerCase` is `lower`. -/
def ReachableWith (lower : String → String) (st : Store) : Prop :=
  ∃ (users : List User) (calls : List Call),
    (∀ c ∈ calls, c.env.toLowerCase = lower) ∧ st = runCalls ⟨[], users⟩ calls

/-- The store reached when user 10 creates a draft with the tags
' Yoga , MORNING'. -/
def exTagged : Store :=
  runCalls ⟨[], exUsers⟩
    [.saveDraft exEnv (some 10) ⟨none, some "T", some " Yoga , MORNING", none⟩]

/-- The draft of user 20 after that user has saved it again at time 100. -/
def exDraftSaved : Session := { exDraft with updatedAt := 100 }

/-- The string `t.join(', ')` the editor puts in its tags field when it loads
a session (`SessionEditor.fetchSession`). -/
def jsJoinCommaSpace (t : List String) : String :=
  ⟨[',', ' '].intercalate (t.map String.data)⟩

/-- The state of the session form (`SessionForm.js`): its three text
fields. -/
structure FormData where
  title : String
  tags : String
  json_file_url : String
deriving DecidableEq, Repr

/-- Function `validateForm` of `SessionForm.js`: true when no error is
recorded, that is when the title is not blank and not longer than 200, and
the URL is empty or matches the pattern. -/
def validateForm (formData : FormData) : Bool :=
  let titleError : Bool :=
    if jsTrim formData.title = "" then true
    else if 200 < jsLength formData.title then true
    else false
  let urlError : Bool :=
    formData.json_file_url != "" && !testHttpUrl formData.json_file_url
  !titleError && !urlError

/-- The payload `{ ...formData, id: sessionId }` that `handleSubmit` sends. -/
def payload (formData : FormData) (sessionId : Option String) : Body :=
  { id := sessionId
    title := some formData.title
    tags := some formData.tags
    json_file_url := some formData.json_file_url }

/-- A form state with a title and the URL 'http:// ', which ends with a
space. -/
def exBadForm : FormData := { title := "T", tags := "", json_file_url := "http:// " }

/-- The answer of a writing handler after `await session.save()`: 200 with
the saved record, or, when the call threw, 500 from the catch block. -/
def afterSave (okMessage failMessage : String) (st : Store) :
    Except DbError (Session × Store) → Response × Store
  | .ok (session, st') => (⟨200, .saved okMessage session⟩, st')
  | .error _ => (⟨500, .message failMessage⟩, st)

/-- The answer of a writing handler after `await Session.findOneAndUpdate`:
404 when it gave null, 200 with the updated record, or, when the call threw,
500 from the catch block. -/
def afterUpdate (okMessage failMessage : String) (st : Store) :
    Except DbError (Option Session × Store) → Response × Store
  | .ok (none, _) => (⟨404, .message "Session not found or unauthorized"⟩, st)
  | .ok (some session, st') => (⟨200, .saved okMessage session⟩, st')
  | .error _ => (⟨500, .message failMessage⟩, st)

/-- The tag list in the words of the specification, for the pieces of the
tags string between its commas: each piece trimmed, the pieces that are
empty once trimmed discarded, the order kept. -/
def specTagList (pieces : List String) : List String :=
  (pieces.map jsTrim).filter fun tag => tag ≠ ""

/-! ## Auxiliary lemmas -/

theorem filter_eq_filter_of_imp {α : Type} (p q : α → Bool) (l : List α)
    (h : ∀ a, p a = true → q a = true) : l.filter p = (l.filter q).filter p := by
  rw [List.filter_filter]
  apply List.filter_congr
  intro a _
  cases hp : p a with
  | false => simp
  | true => simp [h a hp]

theorem find?_eq_find?_filter_of_imp {α : Type} (p q : α → Bool) (l : List α)
    (h : ∀ a, p a = true → q a = true) : l.find? p = (l.filter q).find? p := by
  induction l with
  | nil => rfl
  | cons a l ih =>
    cases hq : q a with
    | true =>
      rw [List.filter_cons_of_pos hq]
      simp only [List.find?_cons, ih]
    | false =>
      have hp : p a = false := by
        cases hp : p a with
        | false => rfl
        | true => rw [h a hp] at hq; cases hq
      rw [List.filter_cons_of_neg (by simp [hq])]
      simp only [List.find?_cons, hp, ih]

theorem find?_mem_pred {α : Type} (p : α → Bool) (l : List α) (a : α)
    (h : l.find? p = some a) : a ∈ l ∧ p a = true :=
  ⟨List.mem_of_find?_eq_some h, List.find?_some h⟩

theorem sortDesc_perm (key : Session → Nat) (l : List Session) :
    (sortDesc key l).Perm l :=
  List.perm_insertionSort _ l

theorem sortDesc_sorted (key : Session → Nat) (l : List Session) :
    (sortDesc key l).Sorted fun a b => key b ≤ key a := by
  haveI : IsTotal Session fun a b => key b ≤ key a := ⟨fun a b => Nat.le_total _ _⟩
  haveI : IsTrans Session fun a b => key b ≤ key a :=
    ⟨fun _ _ _ hab hbc => Nat.le_trans hbc hab⟩
  exact List.sorted_insertionSort _ l

theorem published_visible (c : Option ObjectId) (s : Session)
    (h : (s.status == "published") = true) : visibleTo c s = true := by
  have hs : s.status = "published" := by simpa using h
  simp [visibleTo, hs]

theorem owned_visible (uid : ObjectId) (s : Session)
    (h : (s.user_id == uid) = true) : visibleTo (some uid) s = true := by
  have hs : s.user_id = uid := by simpa using h
  simp [visibleTo, hs]

/-- C1. Draft confidentiality: when two stores have the same users and the
same sessions once the drafts owned by users other than the caller are left
out, the three read handlers answer the caller identically in both. -/
theorem draft_confidentiality (env : Env) (st₁ st₂ : Store) (c : Option ObjectId)
    (id : String) (husers : st₁.users = st₂.users)
    (hvis : st₁.sessions.filter (visibleTo c) = st₂.sessions.filter (visibleTo c)) :
    getPublicSessions env st₁ = getPublicSessions env st₂ ∧
    getUserSessions env st₁ c = getUserSessions env st₂ c ∧
    getUserSession env st₁ c id = getUserSession env st₂ c id := by
  refine ⟨?_, ?_, ?_⟩
  · unfold getPublicSessions Session.find
    cases env.fault with
    | some e => rfl
    | none =>
      simp only [husers]
      rw [filter_eq_filter_of_imp _ (visibleTo c) st₁.sessions (published_visible c),
        filter_eq_filter_of_imp _ (visibleTo c) st₂.sessions (published_visible c), hvis]
  · cases c with
    | none => rfl
    | some uid =>
      unfold getUserSessions Session.find
      cases env.fault with
      | some e => rfl
      | none =>
        simp only
        rw [filter_eq_filter_of_imp _ (visibleTo (some uid)) st₁.sessions
            (owned_visible uid),
          filter_eq_filter_of_imp _ (visibleTo (some uid)) st₂.sessions
            (owned_visible uid), hvis]
  · cases c with
    | none => rfl
    | some uid =>
      unfold getUserSession Session.findOne
      cases castObjectId id with
      | none => rfl
      | some oid =>
        cases env.fault with
        | some e => rfl
        | none =>
          simp only
          have himp : ∀ s : Session, (s._id == oid && s.user_id == uid) = true →
              visibleTo (some uid) s = true := by
            intro s hs
            rw [Bool.and_eq_true] at hs
            exact owned_visible uid s hs.2
          rw [find?_eq_find?_filter_of_imp _ (visibleTo (some uid)) st₁.sessions himp,
            find?_eq_find?_filter_of_imp _ (visibleTo (some uid)) st₂.sessions himp, hvis]

/-- Witness of C1: user 10 gets the same answers whether or not the draft of
user 20 is in the store. -/
theorem draft_confidentiality_witness :
    exStore.users = exStoreNoDraft.users ∧
    exStore.sessions.filter (visibleTo (some 10)) =
      exStoreNoDraft.sessions.filter (visibleTo (some 10)) ∧
    getPublicSessions exEnv exStore = getPublicSessions exEnv exStoreNoDraft ∧
    getUserSessions exEnv exStore (some 10) =
      getUserSessions exEnv exStoreNoDraft (some 10) ∧
    getUserSession exEnv exStore (some 10) "000000000000000000000002" =
      getUserSession exEnv exStoreNoDraft (some 10) "000000000000000000000002" :=
  ⟨rfl, by decide,
    draft_confidentiality exEnv exStore exStoreNoDraft (some 10)
      "000000000000000000000002" rfl (by decide)⟩

theorem find?_owner_eq_none (l : List Session) (oid uid : ObjectId)
    (h : ∀ s ∈ l, s._id = oid → s.user_id ≠ uid) :
    l.find? (fun s => s._id == oid && s.user_id == uid) = none := by
  rw [List.find?_eq_none]
  intro s hs hp
  simp only [Bool.and_eq_true, beq_iff_eq] at hp
  exact h s hs hp.1 hp.2

theorem eq_of_id_eq_of_nodup (l : List Session) (hnd : (l.map (·._id)).Nodup)
    (s t : Session) (hs : s ∈ l) (ht : t ∈ l) (hid : s._id = t._id) : s = t :=
  List.inj_on_of_nodup_map hnd hs ht hid

theorem find?_owner_of_unique (l : List Session) (hnd : (l.map (·._id)).Nodup)
    (s : Session) (hs : s ∈ l) (uid : ObjectId) (hown : s.user_id = uid) :
    l.find? (fun t => t._id == s._id && t.user_id == uid) = some s := by
  cases hf : l.find? (fun t => t._id == s._id && t.user_id == uid) with
  | none =>
    rw [List.find?_eq_none] at hf
    exact absurd (by simp [hown]) (hf s hs)
  | some t =>
    have ht := find?_mem_pred _ l t hf
    simp only [Bool.and_eq_true, beq_iff_eq] at ht
    rw [eq_of_id_eq_of_nodup l hnd t s ht.1 hs ht.2.1]

/-- C3. No existence leak in `getUserSession`: for a caller `B` and an id, a
store in which a session with that id exists and belongs to someone else and
a store in which no session has that id give the same response, which is
404 'Session not found' when the storage works. -/
theorem getUserSession_no_existence_leak (env : Env) (st₁ st₂ : Store)
    (B : ObjectId) (id : String) (s : Session) (huniq : st₁.idsUnique)
    (hs : s ∈ st₁.sessions) (hid : castObjectId id = some s._id)
    (hown : s.user_id ≠ B)
    (hno : ∀ t ∈ st₂.sessions, castObjectId id ≠ some t._id) :
    getUserSession env st₁ (some B) id = getUserSession env st₂ (some B) id ∧
    (env.fault = none →
      getUserSession env st₁ (some B) id = ⟨404, .message "Session not found"⟩) := by
  have h₁ : st₁.sessions.find? (fun t => t._id == s._id && t.user_id == B) = none := by
    apply find?_owner_eq_none
    intro t ht htid
    rw [eq_of_id_eq_of_nodup _ huniq t s ht hs htid]
    exact hown
  have h₂ : st₂.sessions.find? (fun t => t._id == s._id && t.user_id == B) = none := by
    apply find?_owner_eq_none
    intro t ht htid
    exact absurd (by rw [hid, htid]) (hno t ht)
  unfold getUserSession Session.findOne
  rw [hid]
  cases hf : env.fault with
  | some e => simp
  | none => simp [h₁, h₂]

/-- C4. With a working storage, `getUserSession` answers 200 exactly when a
stored session has the requested id and the caller as owner; on success the
body is such a stored session, and when ids are unique it is the stored
session with that id. -/
theorem getUserSession_ok_iff (env : Env) (st : Store) (c : ObjectId) (id : String)
    (hfault : env.fault = none) :
    ((getUserSession env st (some c) id).status = 200 ↔
      ∃ s ∈ st.sessions, castObjectId id = some s._id ∧ s.user_id = c) ∧
    ((getUserSession env st (some c) id).status = 200 →
      ∃ s ∈ st.sessions, castObjectId id = some s._id ∧ s.user_id = c ∧
        getUserSession env st (some c) id = ⟨200, .session s⟩) ∧
    (st.idsUnique → ∀ s ∈ st.sessions, castObjectId id = some s._id → s.user_id = c →
      getUserSession env st (some c) id = ⟨200, .session s⟩) := by
  have key : (getUserSession env st (some c) id).status = 200 →
      ∃ s ∈ st.sessions, castObjectId id = some s._id ∧ s.user_id = c ∧
        getUserSession env st (some c) id = ⟨200, .session s⟩ := by
    unfold getUserSession Session.findOne
    rw [hfault]
    cases hc : castObjectId id with
    | none => simp
    | some oid =>
      cases hf : st.sessions.find? (fun s => s._id == oid && s.user_id == c) with
      | none => simp [hf]
      | some s =>
        have hm := find?_mem_pred _ _ s hf
        simp only [Bool.and_eq_true, beq_iff_eq] at hm
        intro _
        exact ⟨s, hm.1, by rw [hm.2.1], hm.2.2, by simp [hf]⟩
  have direct : ∀ s ∈ st.sessions, castObjectId id = some s._id → s.user_id = c →
      (getUserSession env st (some c) id).status = 200 := by
    intro s hs hid hown
    unfold getUserSession Session.findOne
    rw [hfault, hid]
    cases hf : st.sessions.find? (fun t => t._id == s._id && t.user_id == c) with
    | none =>
      rw [List.find?_eq_none] at hf
      exact absurd (by simp [hown]) (hf s hs)
    | some t => simp [hf]
  refine ⟨⟨fun h => ?_, fun h => ?_⟩, key, ?_⟩
  · obtain ⟨s, hs, hid, hown, _⟩ := key h
    exact ⟨s, hs, hid, hown⟩
  · obtain ⟨s, hs, hid, hown⟩ := h
    exact direct s hs hid hown
  · intro huniq s hs hid hown
    unfold getUserSession Session.findOne
    rw [hfault, hid]
    simp [find?_owner_of_unique _ huniq s hs c hown]

/-- Witness of C3: user 10 asks for the draft of user 20, present in one store
and absent from the other. -/
theorem getUserSession_no_existence_leak_witness :
    getUserSession exEnv exStore (some 10) "000000000000000000000002" =
      getUserSession exEnv exStoreNoDraft (some 10) "000000000000000000000002" ∧
    (exEnv.fault = none →
      getUserSession exEnv exStore (some 10) "000000000000000000000002" =
        ⟨404, .message "Session not found"⟩) :=
  getUserSession_no_existence_leak exEnv exStore exStoreNoDraft 10
    "000000000000000000000002" exDraft (by decide) (by decide) (by decide)
    (by decide) (by decide)

/-- Witness of C4: user 10 reads the session it owns. -/
theorem getUserSession_ok_iff_witness :
    exEnv.fault = none ∧
    ((getUserSession exEnv exStore (some 10) "000000000000000000000001").status = 200 ↔
      ∃ s ∈ exStore.sessions,
        castObjectId "000000000000000000000001" = some s._id ∧ s.user_id = 10) :=
  ⟨rfl, (getUserSession_ok_iff exEnv exStore 10 "000000000000000000000001" rfl).1⟩

/-- Counterexample to C5: a published session of user 20 is in the store, and
user 10, who is not its owner, asking for it by id gets 404 and not the
session. -/
theorem getUserSession_published_of_other_is_404 :
    exLater ∈ exStore.sessions ∧ exLater.status = "published" ∧
    castObjectId "000000000000000000000003" = some exLater._id ∧
    getUserSession exEnv exStore (some 10) "000000000000000000000003" =
      ⟨404, .message "Session not found"⟩ ∧
    ¬ (getUserSession exEnv exStore (some 10) "000000000000000000000003" =
        ⟨200, .session exLater⟩ ↔
      (exLater.user_id = 10 ∨ exLater.status = "published")) := by
  decide

/-- C5, amended. With a working storage and unique ids, `getUserSession` with
the id of a stored session `s` returns `s` exactly when the caller owns `s`,
whatever the status of `s`. -/
theorem getUserSession_returns_iff_owner (env : Env) (st : Store) (c : ObjectId)
    (id : String) (s : Session) (hfault : env.fault = none) (huniq : st.idsUnique)
    (hs : s ∈ st.sessions) (hid : castObjectId id = some s._id) :
    getUserSession env st (some c) id = ⟨200, .session s⟩ ↔ s.user_id = c := by
  unfold getUserSession Session.findOne
  rw [hfault, hid]
  constructor
  · intro h
    cases hf : st.sessions.find? (fun t => t._id == s._id && t.user_id == c) with
    | none => simp [hf] at h
    | some t =>
      simp [hf] at h
      have hm := find?_mem_pred _ _ t hf
      simp only [Bool.and_eq_true, beq_iff_eq] at hm
      rw [← h]
      exact hm.2.2
  · intro hown
    simp [find?_owner_of_unique _ huniq s hs c hown]

/-- Witness of C5, amended: user 20 reads its own draft by id. -/
theorem getUserSession_returns_iff_owner_witness :
    (getUserSession exEnv exStore (some 20) "000000000000000000000002" =
      ⟨200, .session exDraft⟩ ↔ exDraft.user_id = 20) :=
  getUserSession_returns_iff_owner exEnv exStore 20 "000000000000000000000002"
    exDraft rfl (by decide) (by decide) (by decide)

/-- C6. With a working storage, `getPublicSessions` answers 200 with the
populated image of a list that is a rearrangement of exactly the stored
sessions whose status is published and that is in descending order of
`createdAt`. -/
theorem getPublicSessions_published_sorted (env : Env) (st : Store)
    (hfault : env.fault = none) :
    ∃ l : List Session,
      getPublicSessions env st = ⟨200, .publicSessions (l.map (populate st.users))⟩ ∧
      l.Perm (st.sessions.filter fun s => s.status == "published") ∧
      (∀ s, s ∈ l ↔ s ∈ st.sessions ∧ s.status = "published") ∧
      l.Sorted fun a b => b.createdAt ≤ a.createdAt := by
  refine ⟨sortDesc (·.createdAt) (st.sessions.filter fun s => s.status == "published"),
    ?_, sortDesc_perm _ _, ?_, sortDesc_sorted _ _⟩
  · unfold getPublicSessions Session.find
    rw [hfault]
  · intro s
    rw [(sortDesc_perm _ _).mem_iff]
    simp [List.mem_filter]

/-- Witness of C6 on the store of the examples. -/
theorem getPublicSessions_published_sorted_witness :
    ∃ l : List Session,
      getPublicSessions exEnv exStore =
        ⟨200, .publicSessions (l.map (populate exStore.users))⟩ ∧
      l.Perm (exStore.sessions.filter fun s => s.status == "published") ∧
      (∀ s, s ∈ l ↔ s ∈ exStore.sessions ∧ s.status = "published") ∧
      l.Sorted fun a b => b.createdAt ≤ a.createdAt :=
  getPublicSessions_published_sorted exEnv exStore rfl

/-- C7. With a working storage, `getUserSessions` answers an authenticated
caller 200 with a list that is a rearrangement of exactly the stored sessions
the caller owns, of either status, in descending order of `updatedAt`. -/
theorem getUserSessions_owned_sorted (env : Env) (st : Store) (c : ObjectId)
    (hfault : env.fault = none) :
    ∃ l : List Session,
      getUserSessions env st (some c) = ⟨200, .sessions l⟩ ∧
      l.Perm (st.sessions.filter fun s => s.user_id == c) ∧
      (∀ s, s ∈ l ↔ s ∈ st.sessions ∧ s.user_id = c) ∧
      l.Sorted fun a b => b.updatedAt ≤ a.updatedAt := by
  refine ⟨sortDesc (·.updatedAt) (st.sessions.filter fun s => s.user_id == c),
    ?_, sortDesc_perm _ _, ?_, sortDesc_sorted _ _⟩
  · unfold getUserSessions Session.find
    rw [hfault]
  · intro s
    rw [(sortDesc_perm _ _).mem_iff]
    simp [List.mem_filter]

/-- Witness of C7: the sessions of user 20, a draft and a published one. -/
theorem getUserSessions_owned_sorted_witness :
    ∃ l : List Session,
      getUserSessions exEnv exStore (some 20) = ⟨200, .sessions l⟩ ∧
      l.Perm (exStore.sessions.filter fun s => s.user_id == 20) ∧
      (∀ s, s ∈ l ↔ s ∈ exStore.sessions ∧ s.user_id = 20) ∧
      l.Sorted fun a b => b.updatedAt ≤ a.updatedAt :=
  getUserSessions_owned_sorted exEnv exStore 20 rfl

theorem trimChars_eq_nil_of_all (cs : List Char)
    (h : ∀ c ∈ cs, isJsWhiteSpace c = true) : trimChars cs = [] := by
  unfold trimChars
  rw [List.dropWhile_eq_nil_iff.mpr h]
  rfl

theorem trimChars_eq_nil_iff (cs : List Char) :
    trimChars cs = [] ↔ ∀ c ∈ cs, isJsWhiteSpace c = true := by
  constructor
  · intro h
    unfold trimChars at h
    rw [List.reverse_eq_nil_iff, List.dropWhile_eq_nil_iff] at h
    have h' : ∀ c ∈ cs.dropWhile isJsWhiteSpace, isJsWhiteSpace c = true := by
      intro c hc
      exact h c (List.mem_reverse.mpr hc)
    have hnil : cs.dropWhile isJsWhiteSpace = [] := by
      cases hd : cs.dropWhile isJsWhiteSpace with
      | nil => rfl
      | cons a l =>
        have h1 := List.head?_dropWhile_not isJsWhiteSpace cs
        rw [hd] at h1 h'
        simp only [List.head?_cons] at h1
        rw [h' a (List.mem_cons_self a l)] at h1
        cases h1
    exact List.dropWhile_eq_nil_iff.mp hnil
  · exact trimChars_eq_nil_of_all cs

theorem jsTrim_eq_empty_iff (t : String) :
    jsTrim t = "" ↔ ∀ c ∈ t.data, isJsWhiteSpace c = true := by
  rw [← trimChars_eq_nil_iff]
  unfold jsTrim
  constructor
  · intro h
    exact congrArg String.data h
  · intro h
    rw [h]

theorem writeSession_blank_title (status ok fail : String) (env : Env) (st : Store)
    (c : ObjectId) (body : Body)
    (h : body.title = none ∨
      ∃ t, body.title = some t ∧ ∀ ch ∈ t.data, isJsWhiteSpace ch = true) :
    writeSession status ok fail env st (some c) body =
      (⟨400, .message "Title is required"⟩, st) := by
  unfold writeSession
  rcases h with h | ⟨t, ht, hws⟩
  · rw [h]
  · rw [ht]
    simp only
    rw [if_pos (Or.inr ((jsTrim_eq_empty_iff t).mpr hws))]

/-- C10. An authenticated `saveDraft` or `publishSession` whose title is
absent, empty or made only of white space is answered 400 'Title is
required' and leaves the store as it was, with or without an id, and whether
or not the storage works. -/
theorem blank_title_is_400 (env : Env) (st : Store) (c : ObjectId) (body : Body)
    (h : body.title = none ∨
      ∃ t, body.title = some t ∧ ∀ ch ∈ t.data, isJsWhiteSpace ch = true) :
    saveDraft env st (some c) body = (⟨400, .message "Title is required"⟩, st) ∧
    publishSession env st (some c) body = (⟨400, .message "Title is required"⟩, st) :=
  ⟨writeSession_blank_title _ _ _ env st c body h,
    writeSession_blank_title _ _ _ env st c body h⟩

/-- Witness of C10: the title of two spaces, with the id of a stored
session. -/
theorem blank_title_is_400_witness :
    saveDraft exEnv exStore (some 10)
        ⟨some "000000000000000000000001", some "  ", some "a", some ""⟩ =
      (⟨400, .message "Title is required"⟩, exStore) ∧
    publishSession exEnv exStore (some 10)
        ⟨some "000000000000000000000001", some "  ", some "a", some ""⟩ =
      (⟨400, .message "Title is required"⟩, exStore) :=
  blank_title_is_400 exEnv exStore 10
    ⟨some "000000000000000000000001", some "  ", some "a", some ""⟩
    (Or.inr ⟨"  ", rfl, by decide⟩)

theorem updateFirst_eq_none (p : Session → Bool) (g : Session → Session)
    (l : List Session) (h : ∀ s ∈ l, p s = false) : updateFirst p g l = none := by
  induction l with
  | nil => rfl
  | cons a l ih =>
    unfold updateFirst
    rw [h a (List.mem_cons_self a l)]
    simp only [Bool.false_eq_true, if_false]
    rw [ih fun s hs => h s (List.mem_cons_of_mem a hs)]
    rfl

theorem jsTrim_empty : jsTrim "" = "" := rfl

theorem castObjectId_ne_empty (id : String) (oid : ObjectId)
    (h : castObjectId id = some oid) : id ≠ "" := by
  intro he
  rw [he] at h
  have hnone : castObjectId "" = none := by decide
  rw [hnone] at h
  cases h

theorem writeSession_unmatched_id (status ok fail : String) (env : Env) (st : Store)
    (c : ObjectId) (body : Body) (title id : String) (oid : ObjectId)
    (hfault : env.fault = none) (htitle : body.title = some title)
    (hnb : jsTrim title ≠ "") (hid : body.id = some id)
    (hcast : castObjectId id = some oid)
    (hno : ∀ s ∈ st.sessions, s._id = oid → s.user_id ≠ c) :
    writeSession status ok fail env st (some c) body =
      (⟨404, .message "Session not found or unauthorized"⟩, st) := by
  have hne : title ≠ "" := by
    intro he
    rw [he] at hnb
    exact hnb jsTrim_empty
  have hnone : updateFirst (fun s => s._id == oid && s.user_id == c)
      (applyUpdate env (fieldsOf body title status)) st.sessions = none := by
    apply updateFirst_eq_none
    intro s hs
    cases hp : (s._id == oid && s.user_id == c) with
    | false => rfl
    | true =>
      simp only [Bool.and_eq_true, beq_iff_eq] at hp
      exact absurd hp.2 (hno s hs hp.1)
  unfold writeSession
  rw [htitle]
  simp only
  rw [if_neg (by simp [hne, hnb]), hid]
  simp only
  rw [if_neg (castObjectId_ne_empty id oid hcast)]
  unfold Session.findOneAndUpdate
  rw [hcast, hfault]
  simp only
  rw [hnone]

/-- Counterexample to C2: with the id `''` no session has that id, yet the
request takes the create path, is answered 200 and adds a record; with the id
`'abc'`, which no session has either, the cast of the id fails and the answer
is 500. -/
theorem unmatched_id_not_always_404 :
    (∀ s ∈ exStore.sessions, castObjectId "" ≠ some s._id) ∧
    (saveDraft exEnv exStore (some 10) ⟨some "", some "T", none, none⟩).1.status = 200 ∧
    (saveDraft exEnv exStore (some 10) ⟨some "", some "T", none, none⟩).2.sessions.length =
      exStore.sessions.length + 1 ∧
    (∀ s ∈ exStore.sessions, castObjectId "abc" ≠ some s._id) ∧
    saveDraft exEnv exStore (some 10) ⟨some "abc", some "T", none, none⟩ =
      (⟨500, .message "Failed to save draft"⟩, exStore) ∧
    publishSession exEnv exStore (some 10) ⟨some "abc", some "T", none, none⟩ =
      (⟨500, .message "Failed to publish session"⟩, exStore) := by
  decide

/-- C2, amended. With a working storage, an authenticated `saveDraft` or
`publishSession` with a non-blank title and an id of 24 hexadecimal digits
that no stored session has, or that only sessions of other owners have, is
answered 404 'Session not found or unauthorized' in both cases, and the
store, the session of the other owner included, is left as it was. -/
theorem unmatched_id_is_404 (env : Env) (st : Store) (c : ObjectId) (body : Body)
    (title id : String) (oid : ObjectId) (hfault : env.fault = none)
    (htitle : body.title = some title) (hnb : jsTrim title ≠ "")
    (hid : body.id = some id) (hcast : castObjectId id = some oid)
    (hno : ∀ s ∈ st.sessions, s._id = oid → s.user_id ≠ c) :
    saveDraft env st (some c) body =
      (⟨404, .message "Session not found or unauthorized"⟩, st) ∧
    publishSession env st (some c) body =
      (⟨404, .message "Session not found or unauthorized"⟩, st) :=
  ⟨writeSession_unmatched_id _ _ _ env st c body title id oid hfault htitle hnb hid
      hcast hno,
    writeSession_unmatched_id _ _ _ env st c body title id oid hfault htitle hnb hid
      hcast hno⟩

/-- Witness of C2, amended: user 10 writes to the id of the draft of user
20. -/
theorem unmatched_id_is_404_witness :
    saveDraft exEnv exStore (some 10)
        ⟨some "000000000000000000000002", some "Mine now", none, none⟩ =
      (⟨404, .message "Session not found or unauthorized"⟩, exStore) ∧
    publishSession exEnv exStore (some 10)
        ⟨some "000000000000000000000002", some "Mine now", none, none⟩ =
      (⟨404, .message "Session not found or unauthorized"⟩, exStore) :=
  unmatched_id_is_404 exEnv exStore 10
    ⟨some "000000000000000000000002", some "Mine now", none, none⟩
    "Mine now" "000000000000000000000002" 2 rfl rfl (by decide) rfl (by decide)
    (by decide)

theorem dropWhile_eq_self_of_head (p : Char → Bool) (b : List Char)
    (h : ∀ a l, b = a :: l → p a = false) : b.dropWhile p = b := by
  cases b with
  | nil => rfl
  | cons a l => simp [List.dropWhile, h a l rfl]

theorem dropWhile_rdropWhile_dropWhile (p : Char → Bool) (cs : List Char) :
    ((cs.dropWhile p).rdropWhile p).dropWhile p = (cs.dropWhile p).rdropWhile p := by
  apply dropWhile_eq_self_of_head
  intro a l hb
  obtain ⟨t, ht⟩ := List.rdropWhile_prefix p (cs.dropWhile p)
  have hhead := List.head?_dropWhile_not p cs
  rw [hb] at ht
  rw [← ht] at hhead
  simpa using hhead

theorem trimChars_idem (cs : List Char) : trimChars (trimChars cs) = trimChars cs := by
  have e : ∀ l, trimChars l = (l.dropWhile isJsWhiteSpace).rdropWhile isJsWhiteSpace :=
    fun _ => rfl
  rw [e (trimChars cs), e cs, dropWhile_rdropWhile_dropWhile, List.rdropWhile_idempotent]

theorem jsTrim_idem (s : String) : jsTrim (jsTrim s) = jsTrim s := by
  unfold jsTrim
  rw [trimChars_idem]

theorem jsLength_pos (s : String) (h : s ≠ "") : 1 ≤ jsLength s := by
  unfold jsLength
  cases hd : s.data with
  | nil =>
    exact absurd (show s = "" from String.ext hd) h
  | cons c l =>
    simp only [List.map_cons, List.sum_cons]
    split <;> omega

theorem any_id_eq_false (l : List Session) (i : ObjectId)
    (h : ∀ s ∈ l, s._id ≠ i) : l.any (fun s => s._id == i) = false := by
  rw [List.any_eq_false]
  intro s hs
  simpa using h s hs

theorem urlValidator_urlOrEmpty (url : Option String)
    (hurl : ∀ u, url = some u → jsTrim u = "" ∨ testHttpUrl (jsTrim u) = true) :
    urlValidator (jsTrim (urlOrEmpty url)) = true := by
  cases url with
  | none => rfl
  | some u =>
    unfold urlOrEmpty
    simp only
    split
    · rfl
    · unfold urlValidator
      rcases hurl u rfl with h | h
      · rw [h]; rfl
      · rw [h]; simp

theorem Session.validate_new_ok (env : Env) (c : ObjectId) (body : Body)
    (title status : String) (hnb : jsTrim title ≠ "")
    (hlen : jsLength (jsTrim title) ≤ 200)
    (hurl : ∀ u, body.json_file_url = some u →
      jsTrim u = "" ∨ testHttpUrl (jsTrim u) = true)
    (hstatus : status = "draft" ∨ status = "published") :
    Session.validate (Session.new env c (fieldsOf body title status)) = .ok () := by
  have h1 := jsLength_pos _ hnb
  unfold Session.validate Session.new fieldsOf
  simp only [jsTrim_idem]
  rw [if_neg hnb, if_neg (by omega), if_neg (by omega),
    urlValidator_urlOrEmpty _ hurl]
  simp only [Bool.not_true, Bool.false_eq_true, if_false]
  rw [if_neg]
  rcases hstatus with h | h <;> simp [h]

theorem writeSession_create (status ok fail : String) (env : Env) (st : Store)
    (owner : ObjectId) (body : Body) (title : String) (hfault : env.fault = none)
    (hfresh : ∀ s ∈ st.sessions, s._id ≠ env.newId)
    (hid : body.id = none ∨ body.id = some "") (htitle : body.title = some title)
    (hnb : jsTrim title ≠ "") (hlen : jsLength (jsTrim title) ≤ 200)
    (hurl : ∀ u, body.json_file_url = some u →
      jsTrim u = "" ∨ testHttpUrl (jsTrim u) = true)
    (hstatus : status = "draft" ∨ status = "published") :
    writeSession status ok fail env st (some owner) body =
      (⟨200, .saved ok (Session.new env owner (fieldsOf body title status))⟩,
        { st with sessions :=
            st.sessions ++ [Session.new env owner (fieldsOf body title status)] }) := by
  have hne : title ≠ "" := by
    intro he
    rw [he] at hnb
    exact hnb jsTrim_empty
  have hsave : Session.save env st (Session.new env owner (fieldsOf body title status)) =
      .ok (Session.new env owner (fieldsOf body title status),
        { st with sessions :=
            st.sessions ++ [Session.new env owner (fieldsOf body title status)] }) := by
    unfold Session.save
    rw [Session.validate_new_ok env owner body title status hnb hlen hurl hstatus, hfault]
    simp only
    rw [any_id_eq_false st.sessions (Session.new env owner (fieldsOf body title status))._id
      hfresh]
    simp
  unfold writeSession
  rw [htitle]
  simp only
  rw [if_neg (by simp [hne, hnb])]
  rcases hid with h | h
  · rw [h]
    simp only
    rw [hsave]
  · rw [h]
    simp only [if_true]
    rw [hsave]

/-- Counterexample to C8: a title of 201 letters is not blank and a body with
it and no `contentUrl` is valid in the sense of the claim, and the URL
`'http:// '` matches the pattern; in both cases the create is answered 500
and no session is added. -/
theorem create_valid_body_can_fail :
    jsTrim exLongTitle ≠ "" ∧
    saveDraft exEnv exStore (some 10) ⟨none, some exLongTitle, none, none⟩ =
      (⟨500, .message "Failed to save draft"⟩, exStore) ∧
    publishSession exEnv exStore (some 10) ⟨none, some exLongTitle, none, none⟩ =
      (⟨500, .message "Failed to publish session"⟩, exStore) ∧
    testHttpUrl "http:// " = true ∧
    saveDraft exEnv exStore (some 10) ⟨none, some "T", none, some "http:// "⟩ =
      (⟨500, .message "Failed to save draft"⟩, exStore) := by
  set_option maxRecDepth 100000 in decide

/-- C8, amended. With a working storage and a fresh generated id, for a body
with no id (absent or empty), a non-blank title of at most 200 code units
once trimmed and a `contentUrl` that once trimmed is empty or matches
`^https?://.+`, `saveDraft` answers 200 with the created record and the new
store is the old one followed by that record, whose status is draft, whose
owner is the caller, whose title is the trimmed title and whose id no stored
session had; `publishSession` does the same with status published. -/
theorem create_adds_one_session (env : Env) (st : Store) (owner : ObjectId)
    (body : Body) (title : String) (hfault : env.fault = none)
    (hfresh : ∀ s ∈ st.sessions, s._id ≠ env.newId)
    (hid : body.id = none ∨ body.id = some "") (htitle : body.title = some title)
    (hnb : jsTrim title ≠ "") (hlen : jsLength (jsTrim title) ≤ 200)
    (hurl : ∀ u, body.json_file_url = some u →
      jsTrim u = "" ∨ testHttpUrl (jsTrim u) = true) :
    (∃ s : Session,
      saveDraft env st (some owner) body =
        (⟨200, .saved "Draft saved successfully" s⟩,
          { st with sessions := st.sessions ++ [s] }) ∧
      s.status = "draft" ∧ s.user_id = owner ∧ s.title = jsTrim title ∧
      ∀ t ∈ st.sessions, t._id ≠ s._id) ∧
    (∃ s : Session,
      publishSession env st (some owner) body =
        (⟨200, .saved "Session published successfully" s⟩,
          { st with sessions := st.sessions ++ [s] }) ∧
      s.status = "published" ∧ s.user_id = owner ∧ s.title = jsTrim title ∧
      ∀ t ∈ st.sessions, t._id ≠ s._id) := by
  constructor
  · exact ⟨Session.new env owner (fieldsOf body title "draft"),
      writeSession_create _ _ _ env st owner body title hfault hfresh hid htitle hnb
        hlen hurl (Or.inl rfl),
      rfl, rfl, jsTrim_idem title, hfresh⟩
  · exact ⟨Session.new env owner (fieldsOf body title "published"),
      writeSession_create _ _ _ env st owner body title hfault hfresh hid htitle hnb
        hlen hurl (Or.inr rfl),
      rfl, rfl, jsTrim_idem title, hfresh⟩

/-- Witness of C8, amended: the scenario of the specification, the draft
'Morning Yoga' created by user 10. -/
theorem create_adds_one_session_witness :
    (∃ s : Session,
      saveDraft exEnv exStore (some 10)
          ⟨none, some "Morning Yoga", some "yoga, morning", some ""⟩ =
        (⟨200, .saved "Draft saved successfully" s⟩,
          { exStore with sessions := exStore.sessions ++ [s] }) ∧
      s.status = "draft" ∧ s.user_id = 10 ∧ s.title = jsTrim "Morning Yoga" ∧
      ∀ t ∈ exStore.sessions, t._id ≠ s._id) ∧
    (∃ s : Session,
      publishSession exEnv exStore (some 10)
          ⟨none, some "Morning Yoga", some "yoga, morning", some ""⟩ =
        (⟨200, .saved "Session published successfully" s⟩,
          { exStore with sessions := exStore.sessions ++ [s] }) ∧
      s.status = "published" ∧ s.user_id = 10 ∧ s.title = jsTrim "Morning Yoga" ∧
      ∀ t ∈ exStore.sessions, t._id ≠ s._id) :=
  create_adds_one_session exEnv exStore 10
    ⟨none, some "Morning Yoga", some "yoga, morning", some ""⟩ "Morning Yoga"
    rfl (by decide) (Or.inl rfl) rfl (by decide) (by decide)
    (fun u hu => by
      have h : u = "" := by
        simp only [Option.some.injEq] at hu
        exact hu.symm
      rw [h]
      exact Or.inl rfl)

theorem splitComma_ne_nil (cs : List Char) : splitComma cs ≠ [] := by
  cases cs with
  | nil => simp [splitComma]
  | cons c cs =>
    unfold splitComma
    split
    · simp
    · split <;> simp

theorem splitComma_no_comma (p : List Char) (h : ',' ∉ p) : splitComma p = [p] := by
  induction p with
  | nil => rfl
  | cons c p ih =>
    have hc : c ≠ ',' := fun e => h (e ▸ List.mem_cons_self c p)
    have hp : ',' ∉ p := fun e => h (List.mem_cons_of_mem c e)
    unfold splitComma
    rw [if_neg hc, ih hp]

theorem splitComma_append_comma (p r : List Char) (h : ',' ∉ p) :
    splitComma (p ++ ',' :: r) = p :: splitComma r := by
  induction p with
  | nil => simp [splitComma]
  | cons c p ih =>
    have hc : c ≠ ',' := fun e => h (e ▸ List.mem_cons_self c p)
    have hp : ',' ∉ p := fun e => h (List.mem_cons_of_mem c e)
    rw [List.cons_append, splitComma, if_neg hc, ih hp]

theorem splitComma_intercalate (pieces : List (List Char)) (hne : pieces ≠ [])
    (hc : ∀ p ∈ pieces, ',' ∉ p) :
    splitComma ([','].intercalate pieces) = pieces := by
  induction pieces with
  | nil => exact absurd rfl hne
  | cons p rest ih =>
    cases rest with
    | nil =>
      have e : [','].intercalate [p] = p := by
        simp [List.intercalate, List.intersperse, List.flatten]
      rw [e]
      exact splitComma_no_comma p (hc p (List.mem_cons_self p []))
    | cons q rest =>
      have e : [','].intercalate (p :: q :: rest) =
          p ++ ',' :: [','].intercalate (q :: rest) := by
        simp [List.intercalate, List.intersperse, List.flatten]
      rw [e, splitComma_append_comma p _ (hc p (List.mem_cons_self p _)),
        ih (by simp) fun x hx => hc x (List.mem_cons_of_mem p hx)]

theorem intercalate_cons_cons (p q : List Char) (rest : List (List Char)) :
    [','].intercalate (p :: q :: rest) = p ++ ',' :: [','].intercalate (q :: rest) := by
  simp [List.intercalate, List.intersperse, List.flatten]

theorem intercalate_singleton (p : List Char) : [','].intercalate [p] = p := by
  simp [List.intercalate, List.intersperse, List.flatten]

theorem intercalate_cons_head (c : Char) (p : List Char) (ps : List (List Char)) :
    [','].intercalate ((c :: p) :: ps) = c :: [','].intercalate (p :: ps) := by
  cases ps with
  | nil => rw [intercalate_singleton, intercalate_singleton]
  | cons q rest => rw [intercalate_cons_cons, intercalate_cons_cons, List.cons_append]

theorem intercalate_splitComma (cs : List Char) :
    [','].intercalate (splitComma cs) = cs := by
  induction cs with
  | nil => exact intercalate_singleton []
  | cons c cs ih =>
    rw [splitComma]
    split
    · rename_i hc
      cases hs : splitComma cs with
      | nil => exact absurd hs (splitComma_ne_nil cs)
      | cons q rest =>
        rw [intercalate_cons_cons, ← hs, ih, hc]
        rfl
    · cases hs : splitComma cs with
      | nil => exact absurd hs (splitComma_ne_nil cs)
      | cons q rest =>
        simp only
        rw [intercalate_cons_head, ← hs, ih]

theorem splitComma_pieces_no_comma (cs : List Char) :
    ∀ p ∈ splitComma cs, ',' ∉ p := by
  induction cs with
  | nil =>
    intro p hp
    simp [splitComma] at hp
    rw [hp]
    simp
  | cons c cs ih =>
    intro p hp
    rw [splitComma] at hp
    split at hp
    · rcases List.mem_cons.mp hp with h | h
      · rw [h]; simp
      · exact ih p h
    · rename_i hc
      cases hs : splitComma cs with
      | nil => exact absurd hs (splitComma_ne_nil cs)
      | cons q rest =>
        rw [hs] at hp ih
        simp only at hp
        rcases List.mem_cons.mp hp with h | h
        · rw [h]
          intro hmem
          rcases List.mem_cons.mp hmem with h1 | h1
          · exact hc h1.symm
          · exact ih q (List.mem_cons_self q rest) h1
        · exact ih p (List.mem_cons_of_mem q h)

theorem jsSplitComma_intercalate (pieces : List String) (hne : pieces ≠ [])
    (hc : ∀ p ∈ pieces, ',' ∉ p.data) :
    jsSplitComma ⟨[','].intercalate (pieces.map String.data)⟩ = pieces := by
  unfold jsSplitComma
  simp only
  rw [splitComma_intercalate (pieces.map String.data) (by simpa using hne)
    (by
      intro p hp
      obtain ⟨q, hq, rfl⟩ := List.mem_map.mp hp
      exact hc q hq)]
  rw [List.map_map]
  conv_rhs => rw [← List.map_id pieces]
  apply List.map_congr_left
  intro a _
  rfl

theorem parseTags_eq (t : String) :
    parseTags (some t) = ((jsSplitComma t).map jsTrim).filter fun tag => tag ≠ "" := by
  have hf : ∀ l : List String,
      (l.filter fun tag => tag != "") = l.filter fun tag => tag ≠ "" := by
    intro l
    apply List.filter_congr
    intro a _
    by_cases h : a = "" <;> simp [h]
  unfold parseTags
  simp only
  split
  · rename_i h
    rw [h]
    decide
  · exact hf _

theorem fieldsOf_tags_pieces (body : Body) (title status : String) (t : String)
    (htags : body.tags = some t) :
    ∃ pieces : List String,
      (pieces ≠ [] ∧ (∀ p ∈ pieces, ',' ∉ p.data) ∧
        [','].intercalate (pieces.map String.data) = t.data) ∧
      (∀ qs : List String, qs ≠ [] → (∀ p ∈ qs, ',' ∉ p.data) →
        [','].intercalate (qs.map String.data) = t.data → qs = pieces) ∧
      (fieldsOf body title status).tags =
        (pieces.map jsTrim).filter fun tag => tag ≠ "" := by
  have hmap : (jsSplitComma t).map String.data = splitComma t.data := by
    unfold jsSplitComma
    rw [List.map_map]
    conv_rhs => rw [← List.map_id (splitComma t.data)]
    apply List.map_congr_left
    intro a _
    rfl
  refine ⟨jsSplitComma t, ⟨?_, ?_, ?_⟩, ?_, ?_⟩
  · unfold jsSplitComma
    simpa using splitComma_ne_nil t.data
  · intro p hp
    apply splitComma_pieces_no_comma t.data
    rw [← hmap]
    exact List.mem_map_of_mem String.data hp
  · rw [hmap, intercalate_splitComma]
  · intro qs hne hc hj
    have h := jsSplitComma_intercalate qs hne hc
    rw [hj] at h
    exact h.symm
  · unfold fieldsOf
    simp only
    rw [htags, parseTags_eq]

theorem updateFirst_map_id (p : Session → Bool) (g : Session → Session)
    (hg : ∀ s, (g s)._id = s._id) (l : List Session) (s : Session) (l' : List Session)
    (h : updateFirst p g l = some (s, l')) : l'.map (·._id) = l.map (·._id) := by
  induction l generalizing s l' with
  | nil => simp [updateFirst] at h
  | cons a l ih =>
    rw [updateFirst] at h
    split at h
    · simp only [Option.some.injEq, Prod.mk.injEq] at h
      rw [← h.2]
      simp [hg]
    · cases hr : updateFirst p g l with
      | none => simp [hr] at h
      | some r =>
        rw [hr] at h
        simp only [Option.map_some', Option.some.injEq, Prod.mk.injEq] at h
        rw [← h.2]
        simp [ih r.1 r.2 hr]

theorem Session.save_idsUnique (env : Env) (st st' : Store) (doc s : Session)
    (hu : st.idsUnique) (h : Session.save env st doc = .ok (s, st')) : st'.idsUnique := by
  unfold Session.save at h
  split at h
  · cases h
  · split at h
    · cases h
    · split at h
      · cases h
      · rename_i hany
        simp only [Except.ok.injEq, Prod.mk.injEq] at h
        rw [← h.2]
        unfold Store.idsUnique at hu ⊢
        simp only [List.map_append, List.map_cons, List.map_nil]
        rw [List.nodup_append]
        refine ⟨hu, List.nodup_singleton _, ?_⟩
        intro a ha hb
        rw [List.mem_singleton] at hb
        apply hany
        rw [List.any_eq_true]
        obtain ⟨t, ht, hta⟩ := List.mem_map.mp ha
        exact ⟨t, ht, by simp [hta, hb]⟩

theorem Session.findOneAndUpdate_idsUnique (env : Env) (st st' : Store) (id : String)
    (user : ObjectId) (f : Fields) (r : Option Session) (hu : st.idsUnique)
    (h : Session.findOneAndUpdate env st id user f = .ok (r, st')) : st'.idsUnique := by
  unfold Session.findOneAndUpdate at h
  split at h
  · cases h
  · split at h
    · cases h
    · split at h
      · simp only [Except.ok.injEq, Prod.mk.injEq] at h
        rw [← h.2]
        exact hu
      · rename_i s l hup
        simp only [Except.ok.injEq, Prod.mk.injEq] at h
        rw [← h.2]
        unfold Store.idsUnique at hu ⊢
        simp only
        rw [updateFirst_map_id _ (applyUpdate env f) (fun _ => rfl) _ _ _ hup]
        exact hu

theorem writeSession_idsUnique (status ok fail : String) (env : Env) (st : Store)
    (user : Option ObjectId) (body : Body) (hu : st.idsUnique) :
    (writeSession status ok fail env st user body).2.idsUnique := by
  unfold writeSession
  cases user with
  | none => exact hu
  | some uid =>
    simp only
    cases body.title with
    | none => exact hu
    | some title =>
      simp only
      split
      · exact hu
      · have hsave : ∀ doc,
            (match Session.save env st doc with
              | .ok (session, st') => ((⟨200, .saved ok session⟩ : Response), st')
              | .error _ => (⟨500, .message fail⟩, st)).2.idsUnique := by
          intro doc
          cases hs : Session.save env st doc with
          | error e => exact hu
          | ok r => exact Session.save_idsUnique env st r.2 doc r.1 hu hs
        cases body.id with
        | none => exact hsave _
        | some id =>
          simp only
          split
          · exact hsave _
          · cases hs : Session.findOneAndUpdate env st id uid
                (fieldsOf body title status) with
            | error e => exact hu
            | ok r =>
              obtain ⟨r1, st'⟩ := r
              cases r1 with
              | none => exact hu
              | some s =>
                exact Session.findOneAndUpdate_idsUnique env st st' id uid _ _ hu hs

theorem updateFirst_some_split (p : Session → Bool) (g : Session → Session)
    (l : List Session) (s' : Session) (l' : List Session)
    (h : updateFirst p g l = some (s', l')) :
    ∃ pre u post, l = pre ++ u :: post ∧ p u = true ∧ (∀ t ∈ pre, p t = false) ∧
      s' = g u ∧ l' = pre ++ g u :: post := by
  induction l generalizing s' l' with
  | nil => simp [updateFirst] at h
  | cons a l ih =>
    rw [updateFirst] at h
    split at h
    · rename_i hp
      simp only [Option.some.injEq, Prod.mk.injEq] at h
      exact ⟨[], a, l, rfl, hp, by simp, h.1.symm, h.2.symm⟩
    · rename_i hp
      cases hr : updateFirst p g l with
      | none => simp [hr] at h
      | some r =>
        rw [hr] at h
        simp only [Option.map_some', Option.some.injEq, Prod.mk.injEq] at h
        obtain ⟨pre, u, post, hl, hpu, hpre, hs, hl'⟩ := ih r.1 r.2 hr
        refine ⟨a :: pre, u, post, by rw [hl]; rfl, hpu, ?_, by rw [← h.1, hs], ?_⟩
        · intro t ht
          rcases List.mem_cons.mp ht with e | e
          · rw [e]; simpa using hp
          · exact hpre t e
        · rw [← h.2, hl']; rfl

theorem updateFirst_ne_none (p : Session → Bool) (g : Session → Session)
    (l : List Session) (s : Session) (hs : s ∈ l) (hp : p s = true) :
    ∃ r, updateFirst p g l = some r := by
  induction l with
  | nil => cases hs
  | cons a l ih =>
    rw [updateFirst]
    split
    · exact ⟨_, rfl⟩
    · rename_i hpa
      rcases List.mem_cons.mp hs with e | e
      · rw [e] at hp; exact absurd hp hpa
      · obtain ⟨r, hr⟩ := ih e
        rw [hr]
        exact ⟨_, rfl⟩

theorem replaceById_of_not_mem (oid : ObjectId) (s' : Session) (l : List Session)
    (h : ∀ t ∈ l, t._id ≠ oid) : replaceById oid s' l = l := by
  unfold replaceById
  conv_rhs => rw [← List.map_id l]
  apply List.map_congr_left
  intro t ht
  simp [h t ht]

theorem nodup_split_ids (pre post : List Session) (u : Session)
    (h : ((pre ++ u :: post).map (·._id)).Nodup) :
    (∀ t ∈ pre, t._id ≠ u._id) ∧ (∀ t ∈ post, t._id ≠ u._id) := by
  rw [List.map_append, List.map_cons, List.nodup_append] at h
  obtain ⟨_, h2, h3⟩ := h
  rw [List.nodup_cons] at h2
  constructor
  · intro t ht e
    exact h3 (List.mem_map_of_mem (·._id) ht) (by rw [e]; exact List.mem_cons_self _ _)
  · intro t ht e
    exact h2.1 (by rw [← e]; exact List.mem_map_of_mem (·._id) ht)

theorem writeSession_update (status ok fail : String) (env : Env) (st : Store)
    (c : ObjectId) (body : Body) (title id : String) (s : Session)
    (hfault : env.fault = none) (htitle : body.title = some title)
    (hnb : jsTrim title ≠ "") (hid : body.id = some id)
    (hcast : castObjectId id = some s._id) (huniq : st.idsUnique)
    (hs : s ∈ st.sessions) (hown : s.user_id = c) :
    writeSession status ok fail env st (some c) body =
      (⟨200, .saved ok (applyUpdate env (fieldsOf body title status) s)⟩,
        { st with sessions :=
            (replaceById s._id (applyUpdate env (fieldsOf body title status) s)
              st.sessions) }) := by
  have hne : title ≠ "" := by
    intro he
    rw [he] at hnb
    exact hnb jsTrim_empty
  obtain ⟨r, hr⟩ := updateFirst_ne_none (fun t => t._id == s._id && t.user_id == c)
    (applyUpdate env (fieldsOf body title status)) st.sessions s hs (by simp [hown])
  obtain ⟨s', l'⟩ := r
  obtain ⟨pre, u, post, hl, hpu, _, hs', hl'⟩ := updateFirst_some_split _ _ _ _ _ hr
  simp only [Bool.and_eq_true, beq_iff_eq] at hpu
  have hus : u = s :=
    eq_of_id_eq_of_nodup _ huniq u s (by rw [hl]; simp) hs hpu.1
  have hsplit : st.sessions = pre ++ s :: post := by rw [hl, hus]
  have hnd := huniq
  unfold Store.idsUnique at hnd
  rw [hsplit] at hnd
  obtain ⟨hpre, hpost⟩ := nodup_split_ids pre post s hnd
  have hrep : replaceById s._id (applyUpdate env (fieldsOf body title status) s)
      st.sessions = l' := by
    rw [hl', hus, hsplit]
    unfold replaceById
    rw [List.map_append, List.map_cons]
    have e1 := replaceById_of_not_mem s._id
      (applyUpdate env (fieldsOf body title status) s) pre hpre
    have e2 := replaceById_of_not_mem s._id
      (applyUpdate env (fieldsOf body title status) s) post hpost
    unfold replaceById at e1 e2
    rw [e1, e2]
    simp
  unfold writeSession
  rw [htitle]
  simp only
  rw [if_neg (by simp [hne, hnb]), hid]
  simp only
  rw [if_neg (castObjectId_ne_empty id _ hcast)]
  unfold Session.findOneAndUpdate
  rw [hcast, hfault]
  simp only
  rw [hr]
  simp only
  rw [hrep, hs', hus]

/-- C15. A successful update: with a working storage and unique ids, for a
stored session `s` owned by the caller, `saveDraft` and `publishSession` with
the id of `s` and a non-blank title answer 200 with a record that has the id,
the owner and the `createdAt` of `s`, and the new store is the old one with
that record in the place of `s`: every other session, and every user, is as
before. -/
theorem update_frame (env : Env) (st : Store) (c : ObjectId) (body : Body)
    (title id : String) (s : Session) (hfault : env.fault = none)
    (htitle : body.title = some title) (hnb : jsTrim title ≠ "")
    (hid : body.id = some id) (hcast : castObjectId id = some s._id)
    (huniq : st.idsUnique) (hs : s ∈ st.sessions) (hown : s.user_id = c) :
    (∃ s' : Session,
      saveDraft env st (some c) body =
        (⟨200, .saved "Draft saved successfully" s'⟩,
          { sessions := st.sessions.map (fun t => if t._id = s._id then s' else t),
            users := st.users }) ∧
      s'._id = s._id ∧ s'.user_id = s.user_id ∧ s'.createdAt = s.createdAt ∧
      (∀ t ∈ st.sessions, t ≠ s → (if t._id = s._id then s' else t) = t)) ∧
    (∃ s' : Session,
      publishSession env st (some c) body =
        (⟨200, .saved "Session published successfully" s'⟩,
          { sessions := st.sessions.map (fun t => if t._id = s._id then s' else t),
            users := st.users }) ∧
      s'._id = s._id ∧ s'.user_id = s.user_id ∧ s'.createdAt = s.createdAt ∧
      (∀ t ∈ st.sessions, t ≠ s → (if t._id = s._id then s' else t) = t)) := by
  have hother : ∀ s' : Session, ∀ t ∈ st.sessions, t ≠ s →
      (if t._id = s._id then s' else t) = t := by
    intro s' t ht hts
    rw [if_neg]
    intro e
    exact hts (eq_of_id_eq_of_nodup _ huniq t s ht hs e)
  constructor
  · exact ⟨applyUpdate env (fieldsOf body title "draft") s,
      writeSession_update _ _ _ env st c body title id s hfault htitle hnb hid hcast
        huniq hs hown,
      rfl, rfl, rfl, hother _⟩
  · exact ⟨applyUpdate env (fieldsOf body title "published") s,
      writeSession_update _ _ _ env st c body title id s hfault htitle hnb hid hcast
        huniq hs hown,
      rfl, rfl, rfl, hother _⟩

/-- Witness of C15: user 20 saves its draft again under a new title. -/
theorem update_frame_witness :
    (∃ s' : Session,
      saveDraft exEnv exStore (some 20)
          ⟨some "000000000000000000000002", some "Night Calm", none, none⟩ =
        (⟨200, .saved "Draft saved successfully" s'⟩,
          { sessions :=
              exStore.sessions.map (fun t => if t._id = exDraft._id then s' else t),
            users := exStore.users }) ∧
      s'._id = exDraft._id ∧ s'.user_id = exDraft.user_id ∧
      s'.createdAt = exDraft.createdAt ∧
      (∀ t ∈ exStore.sessions, t ≠ exDraft →
        (if t._id = exDraft._id then s' else t) = t)) :=
  (update_frame exEnv exStore 20
    ⟨some "000000000000000000000002", some "Night Calm", none, none⟩
    "Night Calm" "000000000000000000000002" exDraft rfl rfl (by decide) rfl
    (by decide) (by decide) (by decide) rfl).1

theorem mem_replaceById (s s' : Session) (l : List Session) (hs : s ∈ l) :
    s' ∈ replaceById s._id s' l := by
  unfold replaceById
  rw [List.mem_map]
  exact ⟨s, hs, by simp⟩

/-- Counterexample to C16: user 20 publishes its draft with the URL
`' https://host/m.json'`, which begins with a space; the record returned has
the URL without the space, not the submitted one. -/
theorem update_returns_trimmed_url :
    publishSession exEnv exStore (some 20)
        ⟨some "000000000000000000000002", some "T", none,
          some " https://host/m.json"⟩ =
      (⟨200, .saved "Session published successfully"
          { exDraft with title := "T", json_file_url := "https://host/m.json",
                         status := "published", updatedAt := 100 }⟩,
        { exStore with sessions :=
            [exPublished,
             { exDraft with title := "T", json_file_url := "https://host/m.json",
                            status := "published", updatedAt := 100 },
             exLater] }) ∧
    "https://host/m.json" ≠ " https://host/m.json" := by
  decide

/-- C16, amended. With a working storage and unique ids, for a stored session
`s` owned by the caller, whatever its status, `publishSession` with the id of
`s` and a non-blank title answers 200 with the record as updated and stored:
status published, the id of `s`, the trimmed title, and the submitted
`contentUrl` without its surrounding white space (empty when absent);
`saveDraft` does the same with status draft. -/
theorem update_returns_updated (env : Env) (st : Store) (c : ObjectId) (body : Body)
    (title id : String) (s : Session) (hfault : env.fault = none)
    (htitle : body.title = some title) (hnb : jsTrim title ≠ "")
    (hid : body.id = some id) (hcast : castObjectId id = some s._id)
    (huniq : st.idsUnique) (hs : s ∈ st.sessions) (hown : s.user_id = c) :
    (∃ s' : Session,
      (publishSession env st (some c) body).1 =
        ⟨200, .saved "Session published successfully" s'⟩ ∧
      s' ∈ (publishSession env st (some c) body).2.sessions ∧
      s'.status = "published" ∧ s'._id = s._id ∧ s'.title = jsTrim title ∧
      s'.json_file_url = jsTrim (urlOrEmpty body.json_file_url) ∧
      s'.updatedAt = env.now) ∧
    (∃ s' : Session,
      (saveDraft env st (some c) body).1 =
        ⟨200, .saved "Draft saved successfully" s'⟩ ∧
      s' ∈ (saveDraft env st (some c) body).2.sessions ∧
      s'.status = "draft" ∧ s'._id = s._id ∧ s'.title = jsTrim title ∧
      s'.json_file_url = jsTrim (urlOrEmpty body.json_file_url) ∧
      s'.updatedAt = env.now) := by
  constructor
  · refine ⟨applyUpdate env (fieldsOf body title "published") s, ?_, ?_, rfl, rfl,
      jsTrim_idem title, rfl, rfl⟩
    · unfold publishSession
      rw [writeSession_update _ _ _ env st c body title id s hfault htitle hnb hid
        hcast huniq hs hown]
    · unfold publishSession
      rw [writeSession_update _ _ _ env st c body title id s hfault htitle hnb hid
        hcast huniq hs hown]
      exact mem_replaceById s _ _ hs
  · refine ⟨applyUpdate env (fieldsOf body title "draft") s, ?_, ?_, rfl, rfl,
      jsTrim_idem title, rfl, rfl⟩
    · unfold saveDraft
      rw [writeSession_update _ _ _ env st c body title id s hfault htitle hnb hid
        hcast huniq hs hown]
    · unfold saveDraft
      rw [writeSession_update _ _ _ env st c body title id s hfault htitle hnb hid
        hcast huniq hs hown]
      exact mem_replaceById s _ _ hs

/-- Witness of C16, amended: the scenario of the specification, user 20
publishing its draft with the URL 'https://host/m.json'; and user 10 saving
its published session as a draft. -/
theorem update_returns_updated_witness :
    (∃ s' : Session,
      (publishSession exEnv exStore (some 20)
        ⟨some "000000000000000000000002", some "Evening Calm", none,
          some "https://host/m.json"⟩).1 =
        ⟨200, .saved "Session published successfully" s'⟩ ∧
      s'.status = "published" ∧ s'._id = exDraft._id ∧
      s'.json_file_url = "https://host/m.json") ∧
    (∃ s' : Session,
      (saveDraft exEnv exStore (some 10)
        ⟨some "000000000000000000000001", some "Morning Yoga", none, none⟩).1 =
        ⟨200, .saved "Draft saved successfully" s'⟩ ∧
      s'.status = "draft" ∧ s'._id = exPublished._id) := by
  constructor
  · obtain ⟨s', h1, _, h3, h4, _, h6, _⟩ :=
      (update_returns_updated exEnv exStore 20
        ⟨some "000000000000000000000002", some "Evening Calm", none,
          some "https://host/m.json"⟩
        "Evening Calm" "000000000000000000000002" exDraft rfl rfl (by decide) rfl
        (by decide) (by decide) (by decide) rfl).1
    exact ⟨s', h1, h3, h4, by rw [h6]; decide⟩
  · obtain ⟨s', h1, _, h3, h4, _⟩ :=
      (update_returns_updated exEnv exStore 10
        ⟨some "000000000000000000000001", some "Morning Yoga", none, none⟩
        "Morning Yoga" "000000000000000000000001" exPublished rfl rfl (by decide) rfl
        (by decide) (by decide) (by decide) rfl).2
    exact ⟨s', h1, h3, h4⟩

theorem Session.save_ok (env : Env) (st st' : Store) (doc s : Session)
    (h : Session.save env st doc = .ok (s, st')) :
    s = doc ∧ st' = { st with sessions := st.sessions ++ [doc] } ∧
      Session.validate doc = .ok () := by
  unfold Session.save at h
  split at h
  · cases h
  · rename_i hv
    split at h
    · cases h
    · split at h
      · cases h
      · simp only [Except.ok.injEq, Prod.mk.injEq] at h
        exact ⟨h.1.symm, h.2.symm, hv⟩

theorem Session.findOneAndUpdate_ok (env : Env) (st st' : Store) (id : String)
    (user : ObjectId) (f : Fields) (s : Session)
    (h : Session.findOneAndUpdate env st id user f = .ok (some s, st')) :
    ∃ pre u post, st.sessions = pre ++ u :: post ∧ s = applyUpdate env f u ∧
      st' = { st with sessions := pre ++ applyUpdate env f u :: post } := by
  unfold Session.findOneAndUpdate at h
  split at h
  · cases h
  · split at h
    · cases h
    · split at h
      · simp at h
      · rename_i s1 l1 hup
        simp only [Except.ok.injEq, Prod.mk.injEq, Option.some.injEq] at h
        obtain ⟨pre, u, post, hl, _, _, hs1, hl1⟩ := updateFirst_some_split _ _ _ _ _ hup
        exact ⟨pre, u, post, hl, by rw [← h.1, hs1], by rw [← h.2, hl1]⟩

theorem writeSession_preserves (P : Session → Prop) (status ok fail : String)
    (env : Env) (st : Store) (user : Option ObjectId) (body : Body)
    (hnew : ∀ uid title, body.title = some title → jsTrim title ≠ "" →
      Session.validate (Session.new env uid (fieldsOf body title status)) = .ok () →
      P (Session.new env uid (fieldsOf body title status)))
    (hupd : ∀ title u, body.title = some title → jsTrim title ≠ "" → P u →
      P (applyUpdate env (fieldsOf body title status) u))
    (h : ∀ s ∈ st.sessions, P s) :
    ∀ s ∈ (writeSession status ok fail env st user body).2.sessions, P s := by
  unfold writeSession
  cases user with
  | none => exact h
  | some uid =>
    simp only
    cases htitle : body.title with
    | none => exact h
    | some title =>
      simp only
      split
      · exact h
      · rename_i hblank
        have hnb : jsTrim title ≠ "" := fun e => hblank (Or.inr e)
        have hsave :
            ∀ s ∈ (match Session.save env st
                  (Session.new env uid (fieldsOf body title status)) with
              | .ok (session, st') => ((⟨200, .saved ok session⟩ : Response), st')
              | .error _ => (⟨500, .message fail⟩, st)).2.sessions, P s := by
          cases hs : Session.save env st
              (Session.new env uid (fieldsOf body title status)) with
          | error e => exact h
          | ok r =>
            obtain ⟨s1, st1⟩ := r
            obtain ⟨_, hst, hv⟩ := Session.save_ok env st st1 _ s1 hs
            simp only
            rw [hst]
            intro s hmem
            rcases List.mem_append.mp hmem with e | e
            · exact h s e
            · rw [List.mem_singleton] at e
              rw [e]
              exact hnew uid title htitle hnb hv
        cases body.id with
        | none => exact hsave
        | some id =>
          simp only
          split
          · exact hsave
          · cases hs : Session.findOneAndUpdate env st id uid
                (fieldsOf body title status) with
            | error e => exact h
            | ok r =>
              obtain ⟨r1, st1⟩ := r
              cases r1 with
              | none => exact h
              | some s1 =>
                obtain ⟨pre, u, post, hl, _, hst⟩ :=
                  Session.findOneAndUpdate_ok env st st1 id uid _ s1 hs
                simp only
                rw [hst]
                intro s hmem
                simp only [List.mem_append, List.mem_cons] at hmem
                rcases hmem with e | e | e
                · exact h s (by rw [hl]; simp [e])
                · rw [e]
                  exact hupd title u htitle hnb (h u (by rw [hl]; simp))
                · exact h s (by rw [hl]; simp [e])

theorem runCalls_append (st : Store) (calls : List Call) (c : Call) :
    runCalls st (calls ++ [c]) = Call.run (runCalls st calls) c := by
  unfold runCalls
  rw [List.foldl_append]
  rfl

theorem Reachable.induction (P : Store → Prop)
    (h0 : ∀ users, P ⟨[], users⟩)
    (hstep : ∀ st c, P st → P (Call.run st c)) (st : Store) (h : Reachable st) : P st := by
  obtain ⟨users, calls, rfl⟩ := h
  induction calls using List.reverseRecOn with
  | nil => exact h0 users
  | append_singleton l c ih =>
    rw [runCalls_append]
    exact hstep _ c ih

/-- C17. Status invariant: in every store reachable by `saveDraft` and
`publishSession` calls, whatever their bodies, the status of every stored
session is draft or published. -/
theorem status_invariant (st : Store) (h : Reachable st) :
    ∀ s ∈ st.sessions, s.status = "draft" ∨ s.status = "published" := by
  refine Reachable.induction
    (fun st => ∀ s ∈ st.sessions, s.status = "draft" ∨ s.status = "published")
    ?_ ?_ st h
  · intro users s hs
    cases hs
  · intro st c ih
    cases c with
    | saveDraft env user body =>
      exact writeSession_preserves _ _ _ _ env st user body
        (fun _ _ _ _ _ => Or.inl rfl) (fun _ _ _ _ _ => Or.inl rfl) ih
    | publishSession env user body =>
      exact writeSession_preserves _ _ _ _ env st user body
        (fun _ _ _ _ _ => Or.inr rfl) (fun _ _ _ _ _ => Or.inr rfl) ih

/-- Witness of C17: the store reached when user 10 creates a draft and then
publishes it holds one session, which is published. -/
theorem status_invariant_witness :
    Reachable exReached ∧ exReached.sessions.length = 1 ∧
    ∀ s ∈ exReached.sessions, s.status = "draft" ∨ s.status = "published" :=
  ⟨⟨_, _, rfl⟩, by decide, status_invariant exReached ⟨_, _, rfl⟩⟩

/-- C18. A request with no attached identity is answered 401 'User not
authenticated' by each of the four protected handlers, whatever the id, the
body and the state of the storage; the two writing handlers leave the store
as it was (the two reading handlers never write). -/
theorem unauthenticated_is_401 (env : Env) (st : Store) (id : String) (body : Body) :
    getUserSessions env st none = ⟨401, .message "User not authenticated"⟩ ∧
    getUserSession env st none id = ⟨401, .message "User not authenticated"⟩ ∧
    saveDraft env st none body = (⟨401, .message "User not authenticated"⟩, st) ∧
    publishSession env st none body = (⟨401, .message "User not authenticated"⟩, st) :=
  ⟨rfl, rfl, rfl, rfl⟩

theorem writeSession_fault (status ok fail : String) (env : Env) (st : Store)
    (c : ObjectId) (body : Body) (title e : String) (hfault : env.fault = some e)
    (htitle : body.title = some title) (hnb : jsTrim title ≠ "") :
    writeSession status ok fail env st (some c) body = (⟨500, .message fail⟩, st) := by
  have hne : title ≠ "" := by
    intro he
    rw [he] at hnb
    exact hnb jsTrim_empty
  have hsave : ∀ doc, ∃ err, Session.save env st doc = .error err := by
    intro doc
    unfold Session.save
    cases Session.validate doc with
    | error err => exact ⟨err, rfl⟩
    | ok u =>
      rw [hfault]
      exact ⟨_, rfl⟩
  have hupd : ∀ id f, ∃ err, Session.findOneAndUpdate env st id c f = .error err := by
    intro id f
    unfold Session.findOneAndUpdate
    cases castObjectId id with
    | none => exact ⟨_, rfl⟩
    | some oid =>
      rw [hfault]
      exact ⟨_, rfl⟩
  unfold writeSession
  rw [htitle]
  simp only
  rw [if_neg (by simp [hne, hnb])]
  cases body.id with
  | none =>
    obtain ⟨err, he⟩ := hsave (Session.new env c (fieldsOf body title status))
    simp only
    rw [he]
  | some id =>
    simp only
    split
    · obtain ⟨err, he⟩ := hsave (Session.new env c (fieldsOf body title status))
      rw [he]
    · obtain ⟨err, he⟩ := hupd id (fieldsOf body title status)
      rw [he]

/-- C19. When the storage call fails, with whatever error `e`, each of the
five handlers answers 500 with its own fixed message, in which `e` does not
appear; the store is as it was.  The two writing handlers reach the storage
call when the caller is authenticated and the title is not blank. -/
theorem storage_failure_is_500 (env : Env) (st : Store) (c : ObjectId) (id : String)
    (body : Body) (title e : String) (hfault : env.fault = some e)
    (htitle : body.title = some title) (hnb : jsTrim title ≠ "") :
    getPublicSessions env st = ⟨500, .message "Failed to load sessions"⟩ ∧
    getUserSessions env st (some c) = ⟨500, .message "Failed to load your sessions"⟩ ∧
    getUserSession env st (some c) id = ⟨500, .message "Server error"⟩ ∧
    saveDraft env st (some c) body = (⟨500, .message "Failed to save draft"⟩, st) ∧
    publishSession env st (some c) body =
      (⟨500, .message "Failed to publish session"⟩, st) := by
  refine ⟨?_, ?_, ?_, writeSession_fault _ _ _ env st c body title e hfault htitle hnb,
    writeSession_fault _ _ _ env st c body title e hfault htitle hnb⟩
  · unfold getPublicSessions Session.find
    rw [hfault]
  · unfold getUserSessions Session.find
    rw [hfault]
  · unfold getUserSession Session.findOne
    cases castObjectId id with
    | none => rfl
    | some oid => rw [hfault]

/-- Witness of C19: the storage refuses the connection. -/
theorem storage_failure_is_500_witness :
    getPublicSessions exFailEnv exStore = ⟨500, .message "Failed to load sessions"⟩ ∧
    getUserSessions exFailEnv exStore (some 10) =
      ⟨500, .message "Failed to load your sessions"⟩ ∧
    getUserSession exFailEnv exStore (some 10) "000000000000000000000001" =
      ⟨500, .message "Server error"⟩ ∧
    saveDraft exFailEnv exStore (some 10) ⟨none, some "T", none, none⟩ =
      (⟨500, .message "Failed to save draft"⟩, exStore) ∧
    publishSession exFailEnv exStore (some 10) ⟨none, some "T", none, none⟩ =
      (⟨500, .message "Failed to publish session"⟩, exStore) :=
  storage_failure_is_500 exFailEnv exStore 10 "000000000000000000000001"
    ⟨none, some "T", none, none⟩ "T" "ECONNREFUSED 127.0.0.1:27017" rfl rfl (by decide)

theorem Session.validate_new_bad_url (env : Env) (c : ObjectId) (body : Body)
    (title status : String) (hnb : jsTrim title ≠ "")
    (hlen : jsLength (jsTrim title) ≤ 200)
    (hurl : urlValidator (jsTrim (urlOrEmpty body.json_file_url)) = false) :
    Session.validate (Session.new env c (fieldsOf body title status)) =
      .error (.validationError "json_file_url" "Must be a valid HTTP/HTTPS URL") := by
  have h1 := jsLength_pos _ hnb
  unfold Session.validate Session.new fieldsOf
  simp only [jsTrim_idem]
  rw [if_neg hnb, if_neg (by omega), if_neg (by omega), hurl]
  simp

theorem writeSession_create_bad_url (status ok fail : String) (env : Env) (st : Store)
    (owner : ObjectId) (body : Body) (title : String)
    (hid : body.id = none ∨ body.id = some "") (htitle : body.title = some title)
    (hnb : jsTrim title ≠ "") (hlen : jsLength (jsTrim title) ≤ 200)
    (hurl : urlValidator (jsTrim (urlOrEmpty body.json_file_url)) = false) :
    writeSession status ok fail env st (some owner) body =
      (⟨500, .message fail⟩, st) := by
  have hne : title ≠ "" := by
    intro he
    rw [he] at hnb
    exact hnb jsTrim_empty
  have hsave : Session.save env st (Session.new env owner (fieldsOf body title status)) =
      .error (.validationError "json_file_url" "Must be a valid HTTP/HTTPS URL") := by
    unfold Session.save
    rw [Session.validate_new_bad_url env owner body title status hnb hlen hurl]
  unfold writeSession
  rw [htitle]
  simp only
  rw [if_neg (by simp [hne, hnb])]
  rcases hid with h | h
  · rw [h]
    simp only
    rw [hsave]
  · rw [h]
    simp only [if_true]
    rw [hsave]

theorem urlValidator_iff (u : String) :
    urlValidator u = true ↔ u = "" ∨ testHttpUrl u = true := by
  unfold urlValidator
  simp

/-- Counterexample to C11: on the create path with the title 'T', the URL
`'http:// '` matches the pattern and is rejected (nothing is written), and
the URL `' https://x.com/a.json'`, which begins with a space, is not empty and
does not match the pattern and is accepted (a record is written). -/
theorem create_url_acceptance_is_after_trim :
    testHttpUrl "http:// " = true ∧
    publishSession exEnv exStore (some 10) ⟨none, some "T", none, some "http:// "⟩ =
      (⟨500, .message "Failed to publish session"⟩, exStore) ∧
    " https://x.com/a.json" ≠ "" ∧ testHttpUrl " https://x.com/a.json" = false ∧
    (saveDraft exEnv exStore (some 10)
      ⟨none, some "T", none, some " https://x.com/a.json"⟩).1.status = 200 ∧
    (saveDraft exEnv exStore (some 10)
      ⟨none, some "T", none, some " https://x.com/a.json"⟩).2.sessions.length =
      exStore.sessions.length + 1 := by
  decide

/-- C11, amended. On the create path (id absent or empty), with a working
storage, a fresh generated id and a non-blank title of at most 200 code
units once trimmed, `saveDraft` and `publishSession` write a record (and
answer 200) if and only if the `contentUrl`, taken as empty when absent and
with its surrounding white space removed, is empty or matches
`^https?://.+`; otherwise nothing is written. -/
theorem create_accepts_url_iff (env : Env) (st : Store) (owner : ObjectId)
    (body : Body) (title : String) (hfault : env.fault = none)
    (hfresh : ∀ s ∈ st.sessions, s._id ≠ env.newId)
    (hid : body.id = none ∨ body.id = some "") (htitle : body.title = some title)
    (hnb : jsTrim title ≠ "") (hlen : jsLength (jsTrim title) ≤ 200) :
    ((jsTrim (urlOrEmpty body.json_file_url) = "" ∨
        testHttpUrl (jsTrim (urlOrEmpty body.json_file_url)) = true) →
      (∃ s, saveDraft env st (some owner) body =
        (⟨200, .saved "Draft saved successfully" s⟩,
          { st with sessions := st.sessions ++ [s] })) ∧
      (∃ s, publishSession env st (some owner) body =
        (⟨200, .saved "Session published successfully" s⟩,
          { st with sessions := st.sessions ++ [s] }))) ∧
    (¬ (jsTrim (urlOrEmpty body.json_file_url) = "" ∨
        testHttpUrl (jsTrim (urlOrEmpty body.json_file_url)) = true) →
      saveDraft env st (some owner) body = (⟨500, .message "Failed to save draft"⟩, st) ∧
      publishSession env st (some owner) body =
        (⟨500, .message "Failed to publish session"⟩, st)) := by
  constructor
  · intro hv
    have hurl : ∀ u, body.json_file_url = some u →
        jsTrim u = "" ∨ testHttpUrl (jsTrim u) = true := by
      intro u hu
      rw [hu] at hv
      unfold urlOrEmpty at hv
      simp only at hv
      split at hv
      · rename_i he
        rw [he]
        exact Or.inl rfl
      · exact hv
    exact ⟨⟨_, writeSession_create _ _ _ env st owner body title hfault hfresh hid htitle
        hnb hlen hurl (Or.inl rfl)⟩,
      ⟨_, writeSession_create _ _ _ env st owner body title hfault hfresh hid htitle
        hnb hlen hurl (Or.inr rfl)⟩⟩
  · intro hv
    have hurl : urlValidator (jsTrim (urlOrEmpty body.json_file_url)) = false := by
      cases h : urlValidator (jsTrim (urlOrEmpty body.json_file_url)) with
      | false => rfl
      | true => exact absurd ((urlValidator_iff _).mp h) hv
    exact ⟨writeSession_create_bad_url _ _ _ env st owner body title hid htitle hnb hlen
        hurl,
      writeSession_create_bad_url _ _ _ env st owner body title hid htitle hnb hlen
        hurl⟩

/-- Witness of C11, amended: the three examples of the specification;
'ftp://x' is rejected, 'https://x.com/a.json' and the empty URL are
accepted. -/
theorem create_accepts_url_iff_witness :
    saveDraft exEnv exStore (some 10) ⟨none, some "T", none, some "ftp://x"⟩ =
      (⟨500, .message "Failed to save draft"⟩, exStore) ∧
    (∃ s, saveDraft exEnv exStore (some 10)
        ⟨none, some "T", none, some "https://x.com/a.json"⟩ =
      (⟨200, .saved "Draft saved successfully" s⟩,
        { exStore with sessions := exStore.sessions ++ [s] })) ∧
    (∃ s, saveDraft exEnv exStore (some 10) ⟨none, some "T", none, some ""⟩ =
      (⟨200, .saved "Draft saved successfully" s⟩,
        { exStore with sessions := exStore.sessions ++ [s] })) :=
  ⟨((create_accepts_url_iff exEnv exStore 10 ⟨none, some "T", none, some "ftp://x"⟩
      "T" rfl (by decide) (Or.inl rfl) rfl (by decide) (by decide)).2 (by decide)).1,
    ((create_accepts_url_iff exEnv exStore 10
      ⟨none, some "T", none, some "https://x.com/a.json"⟩
      "T" rfl (by decide) (Or.inl rfl) rfl (by decide) (by decide)).1 (by decide)).1,
    ((create_accepts_url_iff exEnv exStore 10 ⟨none, some "T", none, some ""⟩
      "T" rfl (by decide) (Or.inl rfl) rfl (by decide) (by decide)).1 (by decide)).1⟩

/-- C12, the code at the failing input: a create with the title 'T' and the
malformed URL 'ftp://x' is answered 500, not 400, by both handlers; the
model rejects the URL and the handler reports the rejection through its
catch block. -/
theorem malformed_url_is_500 :
    "ftp://x" ≠ "" ∧ testHttpUrl "ftp://x" = false ∧
    saveDraft exEnv exStore (some 10) ⟨none, some "T", none, some "ftp://x"⟩ =
      (⟨500, .message "Failed to save draft"⟩, exStore) ∧
    publishSession exEnv exStore (some 10) ⟨none, some "T", none, some "ftp://x"⟩ =
      (⟨500, .message "Failed to publish session"⟩, exStore) := by
  decide

/-- C13, the code at the failing input: the update path runs no validator,
so a reachable store holds a session whose URL is 'ftp://x', which is not
empty and does not match the pattern. -/
theorem update_stores_malformed_url :
    Reachable exBadUrlStore ∧
    exBadUrlStore.sessions =
      [{ _id := 7, user_id := 10, title := "T", tags := [], json_file_url := "ftp://x",
         status := "draft", createdAt := 100, updatedAt := 200 }] ∧
    "ftp://x" ≠ "" ∧ testHttpUrl "ftp://x" = false :=
  ⟨⟨_, _, rfl⟩, by decide, by decide, by decide⟩

/-- C14, the code at the failing input: the update path runs no validator,
so a reachable store holds a session whose title has 201 code units. -/
theorem update_stores_long_title :
    Reachable exLongTitleStore ∧
    exLongTitleStore.sessions =
      [{ _id := 7, user_id := 10, title := exLongTitle, tags := [], json_file_url := "",
         status := "draft", createdAt := 100, updatedAt := 200 }] ∧
    jsLength exLongTitle = 201 :=
  ⟨⟨_, _, rfl⟩, by set_option maxRecDepth 100000 in decide,
    by set_option maxRecDepth 100000 in decide⟩

/-- C20, the code at the failing input: the save of a new session (no id)
sent twice leaves two sessions where one save leaves one. -/
theorem duplicate_create_adds_two :
    exSavedOnce.sessions =
      [{ _id := 7, user_id := 10, title := "T", tags := [], json_file_url := "",
         status := "draft", createdAt := 100, updatedAt := 100 }] ∧
    exSavedTwice.sessions =
      [{ _id := 7, user_id := 10, title := "T", tags := [], json_file_url := "",
         status := "draft", createdAt := 100, updatedAt := 100 },
       { _id := 8, user_id := 10, title := "T", tags := [], json_file_url := "",
         status := "draft", createdAt := 105, updatedAt := 105 }] := by
  decide

theorem title_nonempty_trimmed (st : Store) (h : Reachable st) :
    ∀ s ∈ st.sessions, s.title ≠ "" ∧ jsTrim s.title = s.title := by
  refine Reachable.induction
    (fun st => ∀ s ∈ st.sessions, s.title ≠ "" ∧ jsTrim s.title = s.title) ?_ ?_ st h
  · intro users s hs
    cases hs
  · intro st c ih
    have hnew : ∀ (env : Env) (body : Body) (status : String) (uid : ObjectId)
        (title : String), jsTrim title ≠ "" →
        (Session.new env uid (fieldsOf body title status)).title ≠ "" ∧
        jsTrim (Session.new env uid (fieldsOf body title status)).title =
          (Session.new env uid (fieldsOf body title status)).title := by
      intro env body status uid title hnb
      unfold Session.new fieldsOf
      simp only [jsTrim_idem]
      exact ⟨hnb, trivial⟩
    have hupd : ∀ (env : Env) (body : Body) (status : String) (u : Session)
        (title : String), jsTrim title ≠ "" →
        (applyUpdate env (fieldsOf body title status) u).title ≠ "" ∧
        jsTrim (applyUpdate env (fieldsOf body title status) u).title =
          (applyUpdate env (fieldsOf body title status) u).title := by
      intro env body status u title hnb
      unfold applyUpdate fieldsOf
      simp only [jsTrim_idem]
      exact ⟨hnb, trivial⟩
    cases c with
    | saveDraft env user body =>
      exact writeSession_preserves _ _ _ _ env st user body
        (fun uid title _ hnb _ => hnew env body _ uid title hnb)
        (fun title u _ hnb _ => hupd env body _ u title hnb) ih
    | publishSession env user body =>
      exact writeSession_preserves _ _ _ _ env st user body
        (fun uid title _ hnb _ => hnew env body _ uid title hnb)
        (fun title u _ hnb _ => hupd env body _ u title hnb) ih

theorem replaceById_replaceById (oid : ObjectId) (a b : Session) (l : List Session)
    (hb : b._id = oid) : replaceById oid a (replaceById oid b l) = replaceById oid a l := by
  unfold replaceById
  rw [List.map_map]
  apply List.map_congr_left
  intro t _
  simp only [Function.comp]
  by_cases h : t._id = oid
  · simp [h, hb]
  · simp [h]

theorem map_erase_replaceById (oid : ObjectId) (a b : Session) (l : List Session)
    (hab : eraseUpdatedAt a = eraseUpdatedAt b) :
    (replaceById oid a l).map eraseUpdatedAt = (replaceById oid b l).map eraseUpdatedAt := by
  unfold replaceById
  rw [List.map_map, List.map_map]
  apply List.map_congr_left
  intro t _
  simp only [Function.comp]
  by_cases h : t._id = oid
  · simp [h, hab]
  · simp [h]

theorem writeSession_update_twice (status ok fail : String) (env₁ env₂ : Env)
    (st : Store) (c : ObjectId) (body : Body) (title id : String) (s : Session)
    (hf₁ : env₁.fault = none) (hf₂ : env₂.fault = none)
    (hlow : env₂.toLowerCase = env₁.toLowerCase)
    (htitle : body.title = some title) (hnb : jsTrim title ≠ "")
    (hid : body.id = some id) (hcast : castObjectId id = some s._id)
    (huniq : st.idsUnique) (hs : s ∈ st.sessions) (hown : s.user_id = c) :
    (writeSession status ok fail env₂
        (writeSession status ok fail env₁ st (some c) body).2 (some c) body).2.sessions.map
      eraseUpdatedAt =
    (writeSession status ok fail env₁ st (some c) body).2.sessions.map eraseUpdatedAt := by
  have hu1 := writeSession_idsUnique status ok fail env₁ st (some c) body huniq
  have h1 := writeSession_update status ok fail env₁ st c body title id s hf₁ htitle hnb
    hid hcast huniq hs hown
  rw [h1] at hu1 ⊢
  have h2 := writeSession_update status ok fail env₂ _ c body title id
    (applyUpdate env₁ (fieldsOf body title status) s) hf₂ htitle hnb hid hcast hu1
    (mem_replaceById s _ _ hs) hown
  rw [h2]
  simp only
  have hid' : (applyUpdate env₁ (fieldsOf body title status) s)._id = s._id := rfl
  rw [hid', replaceById_replaceById _ _ _ _ hid']
  apply map_erase_replaceById
  unfold eraseUpdatedAt applyUpdate castTag
  rw [hlow]

theorem Session.findOneAndUpdate_ok_split (env : Env) (st st' : Store) (id : String)
    (user : ObjectId) (f : Fields) (s : Session)
    (h : Session.findOneAndUpdate env st id user f = .ok (some s, st')) :
    ∃ pre u post, castObjectId id = some u._id ∧ u.user_id = user ∧
      st.sessions = pre ++ u :: post ∧ s = applyUpdate env f u ∧
      st' = { st with sessions := pre ++ s :: post } := by
  unfold Session.findOneAndUpdate at h
  split at h
  · cases h
  · rename_i oid hcast
    split at h
    · cases h
    · split at h
      · simp at h
      · rename_i s1 l1 hup
        simp only [Except.ok.injEq, Prod.mk.injEq, Option.some.injEq] at h
        obtain ⟨pre, u, post, hl, hpu, _, hs1, hl1⟩ := updateFirst_some_split _ _ _ _ _ hup
        simp only [Bool.and_eq_true, beq_iff_eq] at hpu
        refine ⟨pre, u, post, by rw [hcast, hpu.1], hpu.2, hl, by rw [← h.1, hs1], ?_⟩
        rw [← h.2, hl1, ← h.1, hs1]

theorem writeSession_ok_cases (status ok fail : String) (env : Env) (st : Store)
    (uid : ObjectId) (body : Body) (msg : String) (s' : Session)
    (h : (writeSession status ok fail env st (some uid) body).1 = ⟨200, .saved msg s'⟩) :
    ∃ title, body.title = some title ∧ jsTrim title ≠ "" ∧
      ((s' = Session.new env uid (fieldsOf body title status) ∧
          (∀ t ∈ st.sessions, t._id ≠ s'._id) ∧
          (writeSession status ok fail env st (some uid) body).2 =
            { st with sessions := st.sessions ++ [s'] }) ∨
        (∃ pre u post, u.user_id = uid ∧ st.sessions = pre ++ u :: post ∧
          s' = applyUpdate env (fieldsOf body title status) u ∧
          (writeSession status ok fail env st (some uid) body).2 =
            { st with sessions := pre ++ s' :: post })) := by
  unfold writeSession at h ⊢
  simp only at h ⊢
  cases htitle : body.title with
  | none =>
    rw [htitle] at h
    simp at h
  | some title =>
    rw [htitle] at h
    simp only at h ⊢
    split at h
    · simp at h
    · rename_i hblank
      rw [if_neg hblank]
      have hnb : jsTrim title ≠ "" := fun e => hblank (Or.inr e)
      refine ⟨title, rfl, hnb, ?_⟩
      have hsave : ∀ (r : Response × Store),
          r = (match Session.save env st
                  (Session.new env uid (fieldsOf body title status)) with
              | .ok (session, st') => ((⟨200, .saved ok session⟩ : Response), st')
              | .error _ => (⟨500, .message fail⟩, st)) →
          r.1 = ⟨200, .saved msg s'⟩ →
          (s' = Session.new env uid (fieldsOf body title status) ∧
            (∀ t ∈ st.sessions, t._id ≠ s'._id) ∧
            r.2 = { st with sessions := st.sessions ++ [s'] }) := by
        intro r hr h200
        cases hs : Session.save env st
            (Session.new env uid (fieldsOf body title status)) with
        | error e =>
          rw [hs] at hr
          rw [hr] at h200
          simp at h200
        | ok p =>
          obtain ⟨s1, st1⟩ := p
          rw [hs] at hr
          rw [hr] at h200 ⊢
          simp only [Response.mk.injEq, ResBody.saved.injEq, true_and] at h200
          obtain ⟨hdoc, hst, _⟩ := Session.save_ok env st st1 _ s1 hs
          have hs' : s' = Session.new env uid (fieldsOf body title status) := by
            rw [← h200.2, hdoc]
          refine ⟨hs', ?_, by simp only; rw [hst, hs']⟩
          intro t ht e
          unfold Session.save at hs
          split at hs
          · cases hs
          · split at hs
            · cases hs
            · split at hs
              · cases hs
              · rename_i hany
                apply hany
                rw [List.any_eq_true]
                exact ⟨t, ht, by rw [hs'] at e; simp [e]⟩
      cases hid : body.id with
      | none =>
        rw [hid] at h
        exact Or.inl (hsave _ rfl h)
      | some id =>
        rw [hid] at h
        simp only at h ⊢
        split at h
        · rename_i he
          rw [if_pos he]
          exact Or.inl (hsave _ rfl h)
        · rename_i he
          rw [if_neg he]
          cases hs : Session.findOneAndUpdate env st id uid
              (fieldsOf body title status) with
          | error e =>
            rw [hs] at h
            simp at h
          | ok p =>
            obtain ⟨r1, st1⟩ := p
            rw [hs] at h
            cases r1 with
            | none => simp at h
            | some s1 =>
              simp only [Response.mk.injEq, ResBody.saved.injEq, true_and] at h
              obtain ⟨pre, u, post, _, hown, hl, hs1, hst⟩ :=
                Session.findOneAndUpdate_ok_split env st st1 id uid _ s1 hs
              right
              refine ⟨pre, u, post, hown, hl, by rw [← h.2, hs1], ?_⟩
              simp only
              rw [hst, h.2]

theorem writeSession_ok_fields (status ok fail : String) (env : Env) (st : Store)
    (uid : ObjectId) (body : Body) (msg : String) (s' : Session)
    (h : (writeSession status ok fail env st (some uid) body).1 = ⟨200, .saved msg s'⟩) :
    ∃ title, body.title = some title ∧ jsTrim title ≠ "" ∧ s'.title = jsTrim title ∧
      s'.tags = (parseTags body.tags).map (castTag env) ∧
      s'.json_file_url = jsTrim (urlOrEmpty body.json_file_url) ∧
      s'.status = status ∧ s'.user_id = uid ∧ s'.updatedAt = env.now ∧
      s' ∈ (writeSession status ok fail env st (some uid) body).2.sessions := by
  obtain ⟨title, htitle, hnb, hcase⟩ := writeSession_ok_cases _ _ _ env st uid body msg s' h
  refine ⟨title, htitle, hnb, ?_⟩
  rcases hcase with ⟨hs', _, hst⟩ | ⟨pre, u, post, hown, _, hs', hst⟩
  · rw [hst, hs']
    exact ⟨jsTrim_idem title, rfl, rfl, rfl, rfl, rfl, by simp⟩
  · rw [hst, hs']
    exact ⟨jsTrim_idem title, rfl, rfl, rfl, hown, rfl, by simp⟩

/-- C23. Full replacement on every write: when `saveDraft` or
`publishSession` answers 200 with the record `s'`, on the create or the
update path, the title, tags, URL and status of `s'`, which is the record
now stored, are computed from the body alone: the trimmed title, the parsed
tags through the schema setters, the trimmed URL (empty when absent) and the
status of the handler.  In particular tags that are absent or empty give the
empty list and an absent URL gives the empty string, whatever the session
held before. -/
theorem full_replacement (env : Env) (st : Store) (c : ObjectId) (body : Body)
    (msg : String) (s' : Session)
    (h : (saveDraft env st (some c) body).1 = ⟨200, .saved msg s'⟩ ∨
      (publishSession env st (some c) body).1 = ⟨200, .saved msg s'⟩) :
    (∃ title, body.title = some title ∧ s'.title = jsTrim title) ∧
    s'.tags = (parseTags body.tags).map (castTag env) ∧
    s'.json_file_url = jsTrim (urlOrEmpty body.json_file_url) ∧
    ((saveDraft env st (some c) body).1 = ⟨200, .saved msg s'⟩ →
      s'.status = "draft" ∧ s' ∈ (saveDraft env st (some c) body).2.sessions) ∧
    ((publishSession env st (some c) body).1 = ⟨200, .saved msg s'⟩ →
      s'.status = "published" ∧ s' ∈ (publishSession env st (some c) body).2.sessions) ∧
    ((body.tags = none ∨ body.tags = some "") → s'.tags = []) ∧
    (body.json_file_url = none → s'.json_file_url = "") := by
  have hd : (saveDraft env st (some c) body).1 = ⟨200, .saved msg s'⟩ →
      ∃ title, body.title = some title ∧ jsTrim title ≠ "" ∧ s'.title = jsTrim title ∧
        s'.tags = (parseTags body.tags).map (castTag env) ∧
        s'.json_file_url = jsTrim (urlOrEmpty body.json_file_url) ∧
        s'.status = "draft" ∧ s'.user_id = c ∧ s'.updatedAt = env.now ∧
        s' ∈ (saveDraft env st (some c) body).2.sessions :=
    fun h' => writeSession_ok_fields _ _ _ env st c body msg s' h'
  have hp : (publishSession env st (some c) body).1 = ⟨200, .saved msg s'⟩ →
      ∃ title, body.title = some title ∧ jsTrim title ≠ "" ∧ s'.title = jsTrim title ∧
        s'.tags = (parseTags body.tags).map (castTag env) ∧
        s'.json_file_url = jsTrim (urlOrEmpty body.json_file_url) ∧
        s'.status = "published" ∧ s'.user_id = c ∧ s'.updatedAt = env.now ∧
        s' ∈ (publishSession env st (some c) body).2.sessions :=
    fun h' => writeSession_ok_fields _ _ _ env st c body msg s' h'
  have hcommon : (∃ title, body.title = some title ∧ s'.title = jsTrim title) ∧
      s'.tags = (parseTags body.tags).map (castTag env) ∧
      s'.json_file_url = jsTrim (urlOrEmpty body.json_file_url) := by
    rcases h with h | h
    · obtain ⟨title, h1, _, h3, h4, h5, _⟩ := hd h
      exact ⟨⟨title, h1, h3⟩, h4, h5⟩
    · obtain ⟨title, h1, _, h3, h4, h5, _⟩ := hp h
      exact ⟨⟨title, h1, h3⟩, h4, h5⟩
  refine ⟨hcommon.1, hcommon.2.1, hcommon.2.2, ?_, ?_, ?_, ?_⟩
  · intro h'
    obtain ⟨_, _, _, _, _, _, h6, _, _, h9⟩ := hd h'
    exact ⟨h6, h9⟩
  · intro h'
    obtain ⟨_, _, _, _, _, _, h6, _, _, h9⟩ := hp h'
    exact ⟨h6, h9⟩
  · intro ht
    rw [hcommon.2.1]
    rcases ht with e | e <;> rw [e] <;> rfl
  · intro hu
    rw [hcommon.2.2, hu]
    rfl

/-- Witness of C23: user 10 saves its published session, which has two tags
and a URL, with a body that has neither; the record returned has no tags and
the empty URL. -/
theorem full_replacement_witness :
    (saveDraft exEnv exStore (some 10)
      ⟨some "000000000000000000000001", some "Morning Yoga", none, none⟩).1 =
      ⟨200, .saved "Draft saved successfully" exResaved⟩ ∧
    exPublished.tags = ["yoga", "morning"] ∧
    exPublished.json_file_url = "https://host/m.json" ∧
    exResaved.tags = [] ∧ exResaved.json_file_url = "" ∧ exResaved.status = "draft" :=
  have h := full_replacement exEnv exStore 10
    ⟨some "000000000000000000000001", some "Morning Yoga", none, none⟩
    "Draft saved successfully" exResaved (Or.inl (by decide))
  ⟨by decide, rfl, rfl, h.2.2.2.2.2.1 (Or.inl rfl), h.2.2.2.2.2.2 rfl,
    (h.2.2.2.1 (by decide)).1⟩

theorem reachableWith_induction (lower : String → String) (P : Store → Prop)
    (h0 : ∀ users, P ⟨[], users⟩)
    (hstep : ∀ st c, c.env.toLowerCase = lower → P st → P (Call.run st c))
    (st : Store) (h : ReachableWith lower st) : P st := by
  obtain ⟨users, calls, hl, rfl⟩ := h
  induction calls using List.reverseRecOn with
  | nil => exact h0 users
  | append_singleton l c ih =>
    rw [runCalls_append]
    exact hstep _ c (hl c (by simp)) (ih fun d hd => hl d (by simp [hd]))

theorem parseTags_trimmed (tags : Option String) :
    ∀ t ∈ parseTags tags, jsTrim t = t ∧ t ≠ "" := by
  intro t ht
  cases tags with
  | none => simp [parseTags] at ht
  | some x =>
    rw [parseTags_eq] at ht
    rw [List.mem_filter, List.mem_map] at ht
    obtain ⟨⟨p, _, hp⟩, hne⟩ := ht
    refine ⟨by rw [← hp, jsTrim_idem], by simpa using hne⟩

theorem map_castTag_parseTags (env : Env)
    (htrim : ∀ s, jsTrim s = s → jsTrim (env.toLowerCase s) = env.toLowerCase s)
    (tags : Option String) :
    (parseTags tags).map (castTag env) = (parseTags tags).map env.toLowerCase := by
  apply List.map_congr_left
  intro t ht
  unfold castTag
  exact htrim t (parseTags_trimmed tags t ht).1

theorem toLower_toNat (c : Char) :
    c.toLower.toNat = if 65 ≤ c.toNat ∧ c.toNat ≤ 90 then c.toNat + 32 else c.toNat := by
  unfold Char.toLower
  simp only [ge_iff_le]
  split
  · rename_i h
    obtain ⟨h1, h2⟩ := h
    generalize c.toNat = n at h1 h2
    interval_cases n <;> rfl
  · rfl

theorem isJsWhiteSpace_toLower (c : Char) :
    isJsWhiteSpace c.toLower = isJsWhiteSpace c := by
  unfold isJsWhiteSpace
  rw [toLower_toNat]
  split
  · rename_i h
    obtain ⟨h1, h2⟩ := h
    generalize c.toNat = n at h1 h2
    interval_cases n <;> rfl
  · rfl

theorem toLower_of_not_upper (d : Char) (h : ¬ (65 ≤ d.toNat ∧ d.toNat ≤ 90)) :
    d.toLower = d := by
  unfold Char.toLower
  simp only [ge_iff_le]
  rw [if_neg h]

theorem toLower_toLower (c : Char) : c.toLower.toLower = c.toLower := by
  have h := toLower_toNat c
  by_cases hc : 65 ≤ c.toNat ∧ c.toNat ≤ 90
  · rw [if_pos hc] at h
    apply toLower_of_not_upper
    rw [h]
    omega
  · rw [toLower_of_not_upper c hc, toLower_of_not_upper c hc]

theorem asciiLower_idem (s : String) : asciiLower (asciiLower s) = asciiLower s := by
  unfold asciiLower
  simp only [List.map_map]
  congr 1
  apply List.map_congr_left
  intro c _
  exact toLower_toLower c

theorem trimChars_map_toLower (cs : List Char) :
    trimChars (cs.map Char.toLower) = (trimChars cs).map Char.toLower := by
  have hcomp : (isJsWhiteSpace ∘ Char.toLower) = isJsWhiteSpace := by
    funext c
    exact isJsWhiteSpace_toLower c
  unfold trimChars
  rw [List.dropWhile_map, hcomp, ← List.map_reverse, List.dropWhile_map, hcomp,
    ← List.map_reverse]

theorem asciiLower_trim (s : String) (h : jsTrim s = s) :
    jsTrim (asciiLower s) = asciiLower s := by
  have h' : trimChars s.data = s.data := congrArg String.data h
  unfold jsTrim asciiLower
  simp only
  rw [trimChars_map_toLower, h']

theorem castTag_normal (env : Env) (lower : String → String)
    (henv : env.toLowerCase = lower) (hidem : ∀ s, lower (lower s) = lower s)
    (htrim : ∀ s, jsTrim s = s → jsTrim (lower s) = lower s) (tags : Option String) :
    ∀ t ∈ (parseTags tags).map (castTag env), jsTrim t = t ∧ lower t = t := by
  intro t ht
  obtain ⟨p, hp, rfl⟩ := List.mem_map.mp ht
  have hpt := (parseTags_trimmed tags p hp).1
  unfold castTag
  rw [henv, htrim p hpt]
  exact ⟨htrim p hpt, hidem p⟩

/-- C21. Tags normalisation, for a runtime whose `toLowerCase` is `lower`,
a function that is idempotent and gives a trimmed string on a trimmed
string: in every reachable store every tag of every session is trimmed and
lower-case, and the tag list of a record written by `saveDraft` or
`publishSession` is the image under `lower`, in the same order and of the
same length, of the list parsed from the submitted string. -/
theorem tags_normalised (lower : String → String)
    (hidem : ∀ s, lower (lower s) = lower s)
    (htrim : ∀ s, jsTrim s = s → jsTrim (lower s) = lower s) :
    (∀ st, ReachableWith lower st →
      ∀ s ∈ st.sessions, ∀ t ∈ s.tags, jsTrim t = t ∧ lower t = t) ∧
    (∀ (env : Env) (st : Store) (c : ObjectId) (body : Body) (msg : String)
        (s' : Session), env.toLowerCase = lower →
      ((saveDraft env st (some c) body).1 = ⟨200, .saved msg s'⟩ ∨
        (publishSession env st (some c) body).1 = ⟨200, .saved msg s'⟩) →
      s'.tags = (parseTags body.tags).map lower ∧
      s'.tags.length = (parseTags body.tags).length) := by
  constructor
  · intro st hst
    refine reachableWith_induction lower
      (fun st => ∀ s ∈ st.sessions, ∀ t ∈ s.tags, jsTrim t = t ∧ lower t = t)
      ?_ ?_ st hst
    · intro users s hs
      cases hs
    · intro st c henv ih
      cases c with
      | saveDraft env user body =>
        exact writeSession_preserves _ _ _ _ env st user body
          (fun _ _ _ _ _ => castTag_normal env lower henv hidem htrim body.tags)
          (fun _ _ _ _ _ => castTag_normal env lower henv hidem htrim body.tags) ih
      | publishSession env user body =>
        exact writeSession_preserves _ _ _ _ env st user body
          (fun _ _ _ _ _ => castTag_normal env lower henv hidem htrim body.tags)
          (fun _ _ _ _ _ => castTag_normal env lower henv hidem htrim body.tags) ih
  · intro env st c body msg s' henv h
    have htags : s'.tags = (parseTags body.tags).map (castTag env) := by
      rcases h with h | h
      · obtain ⟨_, _, _, _, h4, _⟩ := writeSession_ok_fields _ _ _ env st c body msg s' h
        exact h4
      · obtain ⟨_, _, _, _, h4, _⟩ := writeSession_ok_fields _ _ _ env st c body msg s' h
        exact h4
    have htrim' : ∀ s, jsTrim s = s → jsTrim (env.toLowerCase s) = env.toLowerCase s := by
      rw [henv]
      exact htrim
    rw [htags, map_castTag_parseTags env htrim' body.tags, henv]
    exact ⟨rfl, List.length_map _ _⟩

/-- Witness of C21, with the lower-casing of the ASCII letters: the tags
' Yoga , MORNING' are stored as 'yoga' and 'morning'. -/
theorem tags_normalised_witness :
    ReachableWith asciiLower exTagged ∧
    exTagged.sessions.map (·.tags) = [["yoga", "morning"]] ∧
    (∀ s ∈ exTagged.sessions, ∀ t ∈ s.tags, jsTrim t = t ∧ asciiLower t = t) :=
  ⟨⟨_, _, fun c hc => by rw [List.mem_singleton] at hc; rw [hc]; rfl, rfl⟩, by decide,
    (tags_normalised asciiLower asciiLower_idem asciiLower_trim).1 exTagged
      ⟨_, _, fun c hc => by rw [List.mem_singleton] at hc; rw [hc]; rfl, rfl⟩⟩

theorem sortDesc_head_of_strict_max (key : Session → Nat) (l : List Session)
    (s' : Session) (hs : s' ∈ l) (hmax : ∀ t ∈ l, t ≠ s' → key t < key s') :
    ∃ rest, sortDesc key l = s' :: rest := by
  have hperm := sortDesc_perm key l
  have hsorted := sortDesc_sorted key l
  have hmem : s' ∈ sortDesc key l := hperm.mem_iff.mpr hs
  cases hl : sortDesc key l with
  | nil => rw [hl] at hmem; cases hmem
  | cons a rest =>
    rw [hl] at hmem hsorted
    by_cases ha : a = s'
    · exact ⟨rest, by rw [ha]⟩
    · exfalso
      have hal : a ∈ l := hperm.mem_iff.mp (by rw [hl]; exact List.mem_cons_self a rest)
      have h1 := hmax a hal ha
      have hrest : s' ∈ rest := by
        rcases List.mem_cons.mp hmem with e | e
        · exact absurd e.symm ha
        · exact e
      have h2 := List.rel_of_sorted_cons hsorted s' hrest
      omega

theorem writeSession_newest (status ok fail : String) (env env' : Env) (st : Store)
    (c : ObjectId) (body : Body) (msg : String) (s' : Session)
    (hclock : ∀ t ∈ st.sessions, t.updatedAt < env.now) (hfault' : env'.fault = none)
    (h : (writeSession status ok fail env st (some c) body).1 = ⟨200, .saved msg s'⟩) :
    s'.updatedAt = env.now ∧
    (∀ t ∈ (writeSession status ok fail env st (some c) body).2.sessions, t ≠ s' →
      t.updatedAt < s'.updatedAt) ∧
    (∃ rest, getUserSessions env' (writeSession status ok fail env st (some c) body).2
      (some c) = ⟨200, .sessions (s' :: rest)⟩) ∧
    ((s'.createdAt = env.now ∧ ∀ t ∈ st.sessions, t._id ≠ s'._id) ∨
      (∃ u ∈ st.sessions, u._id = s'._id ∧ s'.createdAt = u.createdAt)) := by
  obtain ⟨title, _, _, _, _, _, _, hown, hupd, hmem⟩ :=
    writeSession_ok_fields _ _ _ env st c body msg s' h
  obtain ⟨title', _, _, hcase⟩ := writeSession_ok_cases _ _ _ env st c body msg s' h
  have hothers : ∀ t ∈ (writeSession status ok fail env st (some c) body).2.sessions,
      t ≠ s' → t.updatedAt < s'.updatedAt := by
    intro t ht hne
    rw [hupd]
    rcases hcase with ⟨_, _, hst⟩ | ⟨pre, u, post, _, hl, _, hst⟩
    · rw [hst] at ht
      rcases List.mem_append.mp ht with e | e
      · exact hclock t e
      · rw [List.mem_singleton] at e
        exact absurd e hne
    · rw [hst] at ht
      simp only [List.mem_append, List.mem_cons] at ht
      rcases ht with e | e | e
      · exact hclock t (by rw [hl]; simp [e])
      · exact absurd e hne
      · exact hclock t (by rw [hl]; simp [e])
  refine ⟨hupd, hothers, ?_, ?_⟩
  · unfold getUserSessions Session.find
    rw [hfault']
    simp only
    obtain ⟨rest, hr⟩ := sortDesc_head_of_strict_max (·.updatedAt)
      ((writeSession status ok fail env st (some c) body).2.sessions.filter
        fun s => s.user_id == c) s'
      (by
        rw [List.mem_filter]
        exact ⟨hmem, by simp [hown]⟩)
      (by
        intro t ht hne
        exact hothers t (List.mem_filter.mp ht).1 hne)
    exact ⟨rest, by rw [hr]⟩
  · rcases hcase with ⟨hs', hfresh, _⟩ | ⟨pre, u, post, _, hl, hs', _⟩
    · left
      exact ⟨by rw [hs']; rfl, hfresh⟩
    · right
      exact ⟨u, by rw [hl]; simp, by rw [hs']; rfl, by rw [hs']; rfl⟩

/-- C24. With a clock that has moved past every stored `updatedAt`, when
`saveDraft` or `publishSession` answers caller `c` 200 with the record `s'`
(create or update), `updatedAt` of `s'` is the time of the call, every other
stored session has a smaller `updatedAt`, and a `getUserSessions` as `c` on
the new store (with a working storage) lists `s'` first.  `createdAt` of `s'`
is the time of the call when the record is new, and is the `createdAt` of the
stored session with that id when it is an update. -/
theorem written_session_is_newest (env env' : Env) (st : Store) (c : ObjectId)
    (body : Body) (msg : String) (s' : Session)
    (hclock : ∀ t ∈ st.sessions, t.updatedAt < env.now) (hfault' : env'.fault = none)
    (h : (saveDraft env st (some c) body).1 = ⟨200, .saved msg s'⟩ ∨
      (publishSession env st (some c) body).1 = ⟨200, .saved msg s'⟩) :
    s'.updatedAt = env.now ∧
    ((saveDraft env st (some c) body).1 = ⟨200, .saved msg s'⟩ →
      (∀ t ∈ (saveDraft env st (some c) body).2.sessions, t ≠ s' →
        t.updatedAt < s'.updatedAt) ∧
      ∃ rest, getUserSessions env' (saveDraft env st (some c) body).2 (some c) =
        ⟨200, .sessions (s' :: rest)⟩) ∧
    ((publishSession env st (some c) body).1 = ⟨200, .saved msg s'⟩ →
      (∀ t ∈ (publishSession env st (some c) body).2.sessions, t ≠ s' →
        t.updatedAt < s'.updatedAt) ∧
      ∃ rest, getUserSessions env' (publishSession env st (some c) body).2 (some c) =
        ⟨200, .sessions (s' :: rest)⟩) ∧
    ((s'.createdAt = env.now ∧ ∀ t ∈ st.sessions, t._id ≠ s'._id) ∨
      (∃ u ∈ st.sessions, u._id = s'._id ∧ s'.createdAt = u.createdAt)) := by
  have hd := fun h' : (saveDraft env st (some c) body).1 = ⟨200, .saved msg s'⟩ =>
    writeSession_newest _ _ _ env env' st c body msg s' hclock hfault' h'
  have hp := fun h' : (publishSession env st (some c) body).1 = ⟨200, .saved msg s'⟩ =>
    writeSession_newest _ _ _ env env' st c body msg s' hclock hfault' h'
  refine ⟨?_, fun h' => ⟨(hd h').2.1, (hd h').2.2.1⟩,
    fun h' => ⟨(hp h').2.1, (hp h').2.2.1⟩, ?_⟩
  · rcases h with h | h
    · exact (hd h).1
    · exact (hp h).1
  · rcases h with h | h
    · exact (hd h).2.2.2
    · exact (hp h).2.2.2

/-- Witness of C24: user 20 saves its older draft again at time 100; it is
then listed before the session that was updated at time 40. -/
theorem written_session_is_newest_witness :
    (saveDraft exEnv exStore (some 20)
      ⟨some "000000000000000000000002", some "Evening Calm", none, none⟩).1 =
      ⟨200, .saved "Draft saved successfully" exDraftSaved⟩ ∧
    exDraftSaved.updatedAt = 100 ∧ exDraftSaved.createdAt = exDraft.createdAt ∧
    ∃ rest, getUserSessions exEnv
      (saveDraft exEnv exStore (some 20)
        ⟨some "000000000000000000000002", some "Evening Calm", none, none⟩).2
      (some 20) = ⟨200, .sessions (exDraftSaved :: rest)⟩ :=
  have h := written_session_is_newest exEnv exEnv exStore 20
    ⟨some "000000000000000000000002", some "Evening Calm", none, none⟩
    "Draft saved successfully" exDraftSaved (by decide) rfl (Or.inl (by decide))
  ⟨by decide, h.1, rfl, (h.2.1 (by decide)).2⟩

theorem mem_replaceById_id (oid : ObjectId) (s' t : Session) (l : List Session)
    (ht : t ∈ replaceById oid s' l) (hid : t._id = oid) : t = s' := by
  unfold replaceById at ht
  obtain ⟨u, _, hu⟩ := List.mem_map.mp ht
  by_cases h : u._id = oid
  · rw [if_pos h] at hu
    exact hu.symm
  · rw [if_neg h] at hu
    rw [← hu] at hid
    exact absurd hid h

theorem getPublicSessions_mem (env : Env) (st : Store) (hfault : env.fault = none) :
    ∃ ps, getPublicSessions env st = ⟨200, .publicSessions ps⟩ ∧
      ∀ p, p ∈ ps ↔ ∃ t ∈ st.sessions, t.status = "published" ∧ p = populate st.users t := by
  refine ⟨(sortDesc (·.createdAt)
    (st.sessions.filter fun s => s.status == "published")).map (populate st.users), ?_, ?_⟩
  · unfold getPublicSessions Session.find
    rw [hfault]
  · intro p
    rw [List.mem_map]
    constructor
    · rintro ⟨t, ht, hp⟩
      rw [(sortDesc_perm _ _).mem_iff, List.mem_filter] at ht
      exact ⟨t, ht.1, by simpa using ht.2, hp.symm⟩
    · rintro ⟨t, ht, hpub, hp⟩
      refine ⟨t, ?_, hp.symm⟩
      rw [(sortDesc_perm _ _).mem_iff, List.mem_filter]
      exact ⟨ht, by simpa using hpub⟩

/-- C25. Saving a draft un-publishes: with a working storage and unique ids,
for a stored session `s` that is published and owned by the caller,
`getPublicSessions` lists `s`; a `saveDraft` with the id of `s` and a
non-blank title answers 200 with a record of status draft and the id of `s`,
and `getPublicSessions` on the new store lists no session with that id. -/
theorem save_draft_unpublishes (env env' : Env) (st : Store) (c : ObjectId)
    (body : Body) (title id : String) (s : Session) (hfault : env.fault = none)
    (hfault' : env'.fault = none) (htitle : body.title = some title)
    (hnb : jsTrim title ≠ "") (hid : body.id = some id)
    (hcast : castObjectId id = some s._id) (huniq : st.idsUnique)
    (hs : s ∈ st.sessions) (hown : s.user_id = c) (hpub : s.status = "published") :
    (∃ ps, getPublicSessions env' st = ⟨200, .publicSessions ps⟩ ∧
      populate st.users s ∈ ps) ∧
    (∃ s', (saveDraft env st (some c) body).1 = ⟨200, .saved "Draft saved successfully" s'⟩ ∧
      s'.status = "draft" ∧ s'._id = s._id ∧
      s' ∈ (saveDraft env st (some c) body).2.sessions) ∧
    (∃ ps, getPublicSessions env' (saveDraft env st (some c) body).2 =
        ⟨200, .publicSessions ps⟩ ∧
      ∀ p ∈ ps, p._id ≠ s._id) := by
  have hw := writeSession_update "draft" "Draft saved successfully" "Failed to save draft"
    env st c body title id s hfault htitle hnb hid hcast huniq hs hown
  refine ⟨?_, ?_, ?_⟩
  · obtain ⟨ps, h1, h2⟩ := getPublicSessions_mem env' st hfault'
    exact ⟨ps, h1, (h2 _).mpr ⟨s, hs, hpub, rfl⟩⟩
  · refine ⟨applyUpdate env (fieldsOf body title "draft") s, ?_, rfl, rfl, ?_⟩
    · unfold saveDraft
      rw [hw]
    · unfold saveDraft
      rw [hw]
      exact mem_replaceById s _ _ hs
  · obtain ⟨ps, h1, h2⟩ :=
      getPublicSessions_mem env' (saveDraft env st (some c) body).2 hfault'
    refine ⟨ps, h1, ?_⟩
    intro p hp hpid
    obtain ⟨t, ht, htpub, hpt⟩ := (h2 p).mp hp
    have htid : t._id = s._id := by
      rw [hpt] at hpid
      exact hpid
    unfold saveDraft at ht
    rw [hw] at ht
    have ht' : t = applyUpdate env (fieldsOf body title "draft") s :=
      mem_replaceById_id s._id _ t st.sessions ht htid
    rw [ht'] at htpub
    have hd : ("draft" : String) = "published" := htpub
    exact absurd hd (by decide)

/-- Witness of C25: user 10 saves its published session as a draft; the
public list held it before and holds only the session of user 20 after. -/
theorem save_draft_unpublishes_witness :
    (∃ ps, getPublicSessions exEnv exStore = ⟨200, .publicSessions ps⟩ ∧
      populate exStore.users exPublished ∈ ps) ∧
    (∃ ps, getPublicSessions exEnv
        (saveDraft exEnv exStore (some 10)
          ⟨some "000000000000000000000001", some "Morning Yoga", none, none⟩).2 =
        ⟨200, .publicSessions ps⟩ ∧
      ∀ p ∈ ps, p._id ≠ exPublished._id) :=
  have h := save_draft_unpublishes exEnv exEnv exStore 10
    ⟨some "000000000000000000000001", some "Morning Yoga", none, none⟩
    "Morning Yoga" "000000000000000000000001" exPublished rfl rfl rfl (by decide) rfl
    (by decide) (by decide) (by decide) rfl rfl
  ⟨h.1, h.2.2⟩

theorem find?_user_of_unique (users : List User)
    (hnd : (users.map (·._id)).Nodup) (u : User) (hu : u ∈ users) :
    users.find? (fun v => v._id == u._id) = some u := by
  cases hf : users.find? (fun v => v._id == u._id) with
  | none =>
    rw [List.find?_eq_none] at hf
    exact absurd (by simp) (hf u hu)
  | some v =>
    have hv := List.find?_some hf
    have hvm := List.mem_of_find?_eq_some hf
    simp only [beq_iff_eq] at hv
    rw [List.inj_on_of_nodup_map hnd hvm hu hv]

theorem populate_owner_congr (users₁ users₂ : List User)
    (h : users₁.map (fun u => (u._id, u.email)) = users₂.map (fun u => (u._id, u.email)))
    (id : ObjectId) :
    ((users₁.find? fun u => u._id == id).map
        fun u => ({ _id := u._id, email := u.email } : PopulatedUser)) =
      (users₂.find? fun u => u._id == id).map
        fun u => ({ _id := u._id, email := u.email } : PopulatedUser) := by
  induction users₁ generalizing users₂ with
  | nil =>
    cases users₂ with
    | nil => rfl
    | cons b l => simp at h
  | cons a l ih =>
    cases users₂ with
    | nil => simp at h
    | cons b l₂ =>
      simp only [List.map_cons, List.cons.injEq, Prod.mk.injEq] at h
      obtain ⟨⟨hid, hemail⟩, htl⟩ := h
      simp only [List.find?_cons]
      rw [hid]
      cases hb : (b._id == id) with
      | true =>
        simp only [Option.map_some']
        rw [hid, hemail]
      | false => exact ih l₂ htl

theorem populate_congr (users₁ users₂ : List User)
    (h : users₁.map (fun u => (u._id, u.email)) = users₂.map (fun u => (u._id, u.email)))
    (s : Session) : populate users₁ s = populate users₂ s := by
  unfold populate
  rw [populate_owner_congr users₁ users₂ h s.user_id]

/-- C22. With a working storage and unique user ids, every entry of the
`getPublicSessions` result is a stored session with its own fields and, in
place of the owner reference, the identifier and the email of the user whose
id is the `user_id` of the session; and the response is the same for two
stores with the same sessions whose users agree on identifiers and emails,
so nothing else of a user record reaches it. -/
theorem public_sessions_show_owner_email (env : Env) (st : Store)
    (hfault : env.fault = none) (huniq : (st.users.map (·._id)).Nodup) :
    (∃ ps, getPublicSessions env st = ⟨200, .publicSessions ps⟩ ∧
      ∀ p ∈ ps, ∃ t ∈ st.sessions,
        p._id = t._id ∧ p.title = t.title ∧ p.tags = t.tags ∧
        p.json_file_url = t.json_file_url ∧ p.status = t.status ∧
        p.createdAt = t.createdAt ∧ p.updatedAt = t.updatedAt ∧
        ∀ u ∈ st.users, u._id = t.user_id →
          p.user_id = some { _id := t.user_id, email := u.email }) ∧
    (∀ st' : Store, st'.sessions = st.sessions →
      st'.users.map (fun u => (u._id, u.email)) =
        st.users.map (fun u => (u._id, u.email)) →
      getPublicSessions env st' = getPublicSessions env st) := by
  constructor
  · obtain ⟨ps, h1, h2⟩ := getPublicSessions_mem env st hfault
    refine ⟨ps, h1, ?_⟩
    intro p hp
    obtain ⟨t, ht, _, hpt⟩ := (h2 p).mp hp
    refine ⟨t, ht, by rw [hpt]; rfl, by rw [hpt]; rfl, by rw [hpt]; rfl, by rw [hpt]; rfl,
      by rw [hpt]; rfl, by rw [hpt]; rfl, by rw [hpt]; rfl, ?_⟩
    intro u hu hid
    rw [hpt]
    unfold populate
    simp only
    rw [← hid, find?_user_of_unique st.users huniq u hu]
    rfl
  · intro st' hsess husers
    unfold getPublicSessions Session.find
    rw [hfault, hsess]
    simp only
    have hpop : populate st'.users = populate st.users := by
      funext s
      exact populate_congr st'.users st.users husers s
    rw [hpop]

/-- Witness of C22 on the store of the examples, whose two users have
different ids. -/
theorem public_sessions_show_owner_email_witness :
    getPublicSessions exEnv exStore =
      ⟨200, .publicSessions
        [{ _id := 3, user_id := some { _id := 20, email := "b@x.org" },
           title := "Breathing", tags := ["breath"], json_file_url := "",
           status := "published", createdAt := 30, updatedAt := 40 },
         { _id := 1, user_id := some { _id := 10, email := "a@x.org" },
           title := "Morning Yoga", tags := ["yoga", "morning"],
           json_file_url := "https://host/m.json", status := "published",
           createdAt := 10, updatedAt := 50 }]⟩ ∧
    (∀ st' : Store, st'.sessions = exStore.sessions →
      st'.users.map (fun u => (u._id, u.email)) =
        exStore.users.map (fun u => (u._id, u.email)) →
      getPublicSessions exEnv st' = getPublicSessions exEnv exStore) :=
  ⟨by decide, (public_sessions_show_owner_email exEnv exStore rfl (by decide)).2⟩

theorem intercalate2_cons_cons (p q : List Char) (rest : List (List Char)) :
    [',', ' '].intercalate (p :: q :: rest) =
      p ++ ',' :: ' ' :: [',', ' '].intercalate (q :: rest) := by
  simp [List.intercalate, List.intersperse, List.flatten]

theorem intercalate2_singleton (p : List Char) : [',', ' '].intercalate [p] = p := by
  simp [List.intercalate, List.intersperse, List.flatten]

theorem intercalate2_eq (p : List Char) (ps : List (List Char)) :
    [',', ' '].intercalate (p :: ps) =
      [','].intercalate (p :: ps.map fun q => ' ' :: q) := by
  induction ps generalizing p with
  | nil => rw [intercalate2_singleton, List.map_nil, intercalate_singleton]
  | cons q qs ih =>
    rw [intercalate2_cons_cons, List.map_cons, intercalate_cons_cons,
      intercalate_cons_head, ih q]

theorem trimChars_cons_space (cs : List Char) : trimChars (' ' :: cs) = trimChars cs := by
  have h : isJsWhiteSpace ' ' = true := by decide
  unfold trimChars
  rw [List.dropWhile_cons_of_pos h]

theorem filter_nonempty_eq_self (t : List String) (h : ∀ x ∈ t, x ≠ "") :
    (t.filter fun tag => tag ≠ "") = t := by
  rw [List.filter_eq_self]
  intro x hx
  simpa using h x hx

theorem parseTags_join (t : List String)
    (ht : ∀ x ∈ t, x ≠ "" ∧ jsTrim x = x ∧ ',' ∉ x.data) :
    parseTags (some (jsJoinCommaSpace t)) = t := by
  cases t with
  | nil => rfl
  | cons x rest =>
    rw [parseTags_eq]
    have hsplit : jsSplitComma (jsJoinCommaSpace (x :: rest)) =
        x :: rest.map fun y => ⟨' ' :: y.data⟩ := by
      unfold jsSplitComma jsJoinCommaSpace
      simp only [List.map_cons]
      rw [intercalate2_eq, splitComma_intercalate _ (by simp)]
      · simp only [List.map_cons, List.map_map]
        rfl
      · intro p hp
        rcases List.mem_cons.mp hp with e | e
        · rw [e]
          exact (ht x (List.mem_cons_self x rest)).2.2
        · rw [List.map_map] at e
          obtain ⟨y, hy, rfl⟩ := List.mem_map.mp e
          intro hmem
          rcases List.mem_cons.mp hmem with h1 | h1
          · exact absurd h1 (by decide)
          · exact (ht y (List.mem_cons_of_mem x hy)).2.2 h1
    have htrim : (x :: rest.map fun y => (⟨' ' :: y.data⟩ : String)).map jsTrim =
        x :: rest := by
      rw [List.map_cons, (ht x (List.mem_cons_self x rest)).2.1, List.map_map]
      congr 1
      conv_rhs => rw [← List.map_id rest]
      apply List.map_congr_left
      intro y hy
      have hy' := (ht y (List.mem_cons_of_mem x hy)).2.1
      simp only [Function.comp, id]
      unfold jsTrim
      simp only
      rw [trimChars_cons_space]
      exact hy'
    rw [hsplit, htrim]
    exact filter_nonempty_eq_self _ fun y hy => (ht y hy).1

/-- C26. Edit round trip of tags: for a tag list `t` whose tags are not
empty, trimmed, lower-case and free of commas, the string `t.join(', ')`
that the editor builds is parsed by the handlers back to `t`, and the list
stored when that string is saved, after the schema setters, is `t`. -/
theorem tags_round_trip (env : Env) (t : List String) (body : Body)
    (title status : String)
    (ht : ∀ x ∈ t, x ≠ "" ∧ jsTrim x = x ∧ env.toLowerCase x = x ∧ ',' ∉ x.data)
    (hbody : body.tags = some (jsJoinCommaSpace t)) :
    parseTags (some (jsJoinCommaSpace t)) = t ∧
    (fieldsOf body title status).tags = t ∧
    (∀ uid, (Session.new env uid (fieldsOf body title status)).tags = t) ∧
    ∀ s, (applyUpdate env (fieldsOf body title status) s).tags = t := by
  have hparse := parseTags_join t fun x hx => ⟨(ht x hx).1, (ht x hx).2.1, (ht x hx).2.2.2⟩
  have hcast : t.map (castTag env) = t := by
    conv_rhs => rw [← List.map_id t]
    apply List.map_congr_left
    intro x hx
    unfold castTag
    rw [(ht x hx).2.2.1, (ht x hx).2.1]
    rfl
  have hf : (fieldsOf body title status).tags = t := by
    unfold fieldsOf
    simp only
    rw [hbody, hparse]
  refine ⟨hparse, hf, ?_, ?_⟩
  · intro uid
    unfold Session.new
    simp only
    rw [hf, hcast]
  · intro s
    unfold applyUpdate
    simp only
    rw [hf, hcast]

/-- Witness of C26: the tags 'yoga' and 'morning' are shown as
'yoga, morning' and saved back as they were. -/
theorem tags_round_trip_witness :
    jsJoinCommaSpace ["yoga", "morning"] = "yoga, morning" ∧
    parseTags (some (jsJoinCommaSpace ["yoga", "morning"])) = ["yoga", "morning"] ∧
    (applyUpdate exEnv
      (fieldsOf ⟨some "000000000000000000000001", some "Morning Yoga",
        some (jsJoinCommaSpace ["yoga", "morning"]), some ""⟩ "Morning Yoga" "draft")
      exPublished).tags = exPublished.tags :=
  have h := tags_round_trip exEnv ["yoga", "morning"]
    ⟨some "000000000000000000000001", some "Morning Yoga",
      some (jsJoinCommaSpace ["yoga", "morning"]), some ""⟩ "Morning Yoga" "draft"
    (by decide) rfl
  ⟨by decide, h.1, h.2.2.2 exPublished⟩

theorem sum_map_le_of_sublist (f : Char → Nat) (l₁ l₂ : List Char) (h : l₁.Sublist l₂) :
    (l₁.map f).sum ≤ (l₂.map f).sum := by
  induction h with
  | slnil => exact Nat.le_refl _
  | cons a _ ih =>
    simp only [List.map_cons, List.sum_cons]
    omega
  | cons₂ a _ ih =>
    simp only [List.map_cons, List.sum_cons]
    omega

theorem trimChars_sublist (cs : List Char) : (trimChars cs).Sublist cs := by
  have h1 : (trimChars cs).Sublist (cs.dropWhile isJsWhiteSpace) :=
    (List.rdropWhile_prefix isJsWhiteSpace _).sublist
  exact h1.trans (List.dropWhile_sublist isJsWhiteSpace)

theorem jsLength_jsTrim_le (s : String) : jsLength (jsTrim s) ≤ jsLength s := by
  unfold jsLength jsTrim
  exact sum_map_le_of_sublist _ _ _ (trimChars_sublist s.data)

theorem validateForm_title (f : FormData) (h : validateForm f = true) :
    jsTrim f.title ≠ "" ∧ jsLength (jsTrim f.title) ≤ 200 := by
  unfold validateForm at h
  simp only [Bool.and_eq_true, Bool.not_eq_true'] at h
  obtain ⟨h1, _⟩ := h
  by_cases hb : jsTrim f.title = ""
  · rw [if_pos hb] at h1
    cases h1
  · rw [if_neg hb] at h1
    refine ⟨hb, ?_⟩
    by_cases hl : 200 < jsLength f.title
    · rw [if_pos hl] at h1
      cases h1
    · have := jsLength_jsTrim_le f.title
      omega

theorem validateForm_sound_of_trimmed_url (env : Env) (uid : ObjectId) (f : FormData)
    (sessionId : Option String) (status : String)
    (hstatus : status = "draft" ∨ status = "published")
    (h : validateForm f = true)
    (hurl : jsTrim f.json_file_url = "" ∨ testHttpUrl (jsTrim f.json_file_url) = true) :
    Session.validate (Session.new env uid (fieldsOf (payload f sessionId) f.title status)) =
      .ok () := by
  obtain ⟨hnb, hlen⟩ := validateForm_title f h
  apply Session.validate_new_ok env uid (payload f sessionId) f.title status hnb hlen _
    hstatus
  intro u hu
  have e : u = f.json_file_url := by
    unfold payload at hu
    simp only [Option.some.injEq] at hu
    exact hu.symm
  rw [e]
  exact hurl

/-- C27, the code at the failing input: `validateForm` accepts the form with
the title 'T' and the URL 'http:// ', and the create path of the server
rejects its payload, the validator of `json_file_url` failing on the trimmed
URL 'http://'; both handlers answer 500 and write nothing. -/
theorem client_accepts_server_rejects :
    validateForm exBadForm = true ∧
    Session.validate
        (Session.new exEnv 10 (fieldsOf (payload exBadForm none) "T" "published")) =
      .error (.validationError "json_file_url" "Must be a valid HTTP/HTTPS URL") ∧
    publishSession exEnv exStore (some 10) (payload exBadForm none) =
      (⟨500, .message "Failed to publish session"⟩, exStore) ∧
    saveDraft exEnv exStore (some 10) (payload exBadForm none) =
      (⟨500, .message "Failed to save draft"⟩, exStore) :=
  ⟨by decide, rfl, by decide, by decide⟩

theorem writeSession_hands_fields (status ok fail : String) (env : Env) (st : Store)
    (c : ObjectId) (body : Body) (title : String) (htitle : body.title = some title)
    (hnb : jsTrim title ≠ "") :
    ((body.id = none ∨ body.id = some "") →
      writeSession status ok fail env st (some c) body =
        afterSave ok fail st
          (Session.save env st (Session.new env c (fieldsOf body title status)))) ∧
    (∀ id, body.id = some id → id ≠ "" →
      writeSession status ok fail env st (some c) body =
        afterUpdate ok fail st
          (Session.findOneAndUpdate env st id c (fieldsOf body title status))) := by
  have hne : title ≠ "" := by
    intro he
    rw [he] at hnb
    exact hnb jsTrim_empty
  have hsave : (match Session.save env st
        (Session.new env c (fieldsOf body title status)) with
      | .ok (session, st') => ((⟨200, .saved ok session⟩ : Response), st')
      | .error _ => (⟨500, .message fail⟩, st)) =
      afterSave ok fail st
        (Session.save env st (Session.new env c (fieldsOf body title status))) := by
    cases Session.save env st (Session.new env c (fieldsOf body title status)) with
    | error e => rfl
    | ok r => rfl
  constructor
  · intro hid
    unfold writeSession
    rw [htitle]
    simp only
    rw [if_neg (by simp [hne, hnb])]
    rcases hid with h | h
    · rw [h]
      exact hsave
    · rw [h]
      simp only [if_true]
      exact hsave
  · intro id hid hidne
    unfold writeSession
    rw [htitle]
    simp only
    rw [if_neg (by simp [hne, hnb]), hid]
    simp only
    rw [if_neg hidne]
    cases Session.findOneAndUpdate env st id c (fieldsOf body title status) with
    | error e => rfl
    | ok r =>
      obtain ⟨r1, st1⟩ := r
      cases r1 with
      | none => rfl
      | some s1 => rfl

theorem fieldsOf_eq_of_tags (body : Body) (title status : String) (tags : List String)
    (h : (fieldsOf body title status).tags = tags) :
    fieldsOf body title status =
      { title := jsTrim title, tags := tags,
        json_file_url := urlOrEmpty body.json_file_url, status := status } := by
  rw [← h]
  rfl

/-- C9. The tag list `saveDraft` and `publishSession` hand to the store, for
an authenticated request with a non-blank title and the tags string `t`.
There is exactly one way to write `t` as pieces without commas joined by
commas (the split of `t` on commas).  On the create path (id absent or
empty) each handler answers with the outcome of `session.save()` on the
document built from the fields whose `tags` are those pieces trimmed,
without the ones that are empty once trimmed, in their order; on the update
path each handler answers with the outcome of `Session.findOneAndUpdate`
called with the same fields; and the record of a 200 answer has that list,
passed through the schema setters, as its tags. -/
theorem tags_split_trim_filter (env : Env) (st : Store) (c : ObjectId) (body : Body)
    (title t : String) (htitle : body.title = some title) (hnb : jsTrim title ≠ "")
    (htags : body.tags = some t) :
    ∃ pieces : List String,
      (pieces ≠ [] ∧ (∀ p ∈ pieces, ',' ∉ p.data) ∧
        [','].intercalate (pieces.map String.data) = t.data) ∧
      (∀ qs : List String, qs ≠ [] → (∀ p ∈ qs, ',' ∉ p.data) →
        [','].intercalate (qs.map String.data) = t.data → qs = pieces) ∧
      ((body.id = none ∨ body.id = some "") →
        saveDraft env st (some c) body =
          afterSave "Draft saved successfully" "Failed to save draft" st
            (Session.save env st (Session.new env c
              { title := jsTrim title, tags := specTagList pieces,
                json_file_url := urlOrEmpty body.json_file_url, status := "draft" })) ∧
        publishSession env st (some c) body =
          afterSave "Session published successfully" "Failed to publish session" st
            (Session.save env st (Session.new env c
              { title := jsTrim title, tags := specTagList pieces,
                json_file_url := urlOrEmpty body.json_file_url,
                status := "published" }))) ∧
      (∀ id, body.id = some id → id ≠ "" →
        saveDraft env st (some c) body =
          afterUpdate "Draft saved successfully" "Failed to save draft" st
            (Session.findOneAndUpdate env st id c
              { title := jsTrim title, tags := specTagList pieces,
                json_file_url := urlOrEmpty body.json_file_url, status := "draft" }) ∧
        publishSession env st (some c) body =
          afterUpdate "Session published successfully" "Failed to publish session" st
            (Session.findOneAndUpdate env st id c
              { title := jsTrim title, tags := specTagList pieces,
                json_file_url := urlOrEmpty body.json_file_url,
                status := "published" })) ∧
      (∀ msg s', ((saveDraft env st (some c) body).1 = ⟨200, .saved msg s'⟩ ∨
          (publishSession env st (some c) body).1 = ⟨200, .saved msg s'⟩) →
        s'.tags = (specTagList pieces).map (castTag env)) := by
  obtain ⟨pieces, hsplit, huniq, hd⟩ := fieldsOf_tags_pieces body title "draft" t htags
  have hp : (fieldsOf body title "published").tags = specTagList pieces := hd
  have hd' : (fieldsOf body title "draft").tags = specTagList pieces := hd
  have hparse : parseTags body.tags = specTagList pieces := hd
  have ed := fieldsOf_eq_of_tags body title "draft" _ hd'
  have ep := fieldsOf_eq_of_tags body title "published" _ hp
  have wd := writeSession_hands_fields "draft" "Draft saved successfully"
    "Failed to save draft" env st c body title htitle hnb
  have wp := writeSession_hands_fields "published" "Session published successfully"
    "Failed to publish session" env st c body title htitle hnb
  rw [ed] at wd
  rw [ep] at wp
  refine ⟨pieces, hsplit, huniq, fun hid => ⟨wd.1 hid, wp.1 hid⟩,
    fun id hid hne => ⟨wd.2 id hid hne, wp.2 id hid hne⟩, ?_⟩
  intro msg s' h
  rw [← hparse]
  rcases h with h | h
  · obtain ⟨_, _, _, _, h4, _⟩ := writeSession_ok_fields _ _ _ env st c body msg s' h
    exact h4
  · obtain ⟨_, _, _, _, h4, _⟩ := writeSession_ok_fields _ _ _ env st c body msg s' h
    exact h4

/-- Witness of C9: the two examples.  With the tags 'yoga, morning', whose
pieces are 'yoga' and ' morning', `saveDraft` on the create path saves a
document built with the tags 'yoga' and 'morning'; with the tags ' , ,',
whose three pieces are empty once trimmed, `publishSession` on the update
path calls `findOneAndUpdate` with no tags. -/
theorem tags_split_trim_filter_witness :
    saveDraft exEnv exStore (some 10) ⟨none, some "T", some "yoga, morning", none⟩ =
      afterSave "Draft saved successfully" "Failed to save draft" exStore
        (Session.save exEnv exStore (Session.new exEnv 10
          { title := "T", tags := ["yoga", "morning"], json_file_url := "",
            status := "draft" })) ∧
    publishSession exEnv exStore (some 20)
        ⟨some "000000000000000000000002", some "T", some " , ,", none⟩ =
      afterUpdate "Session published successfully" "Failed to publish session" exStore
        (Session.findOneAndUpdate exEnv exStore "000000000000000000000002" 20
          { title := "T", tags := [], json_file_url := "", status := "published" }) ∧
    saveDraft exEnv exStore (some 10) ⟨none, some "T", some "yoga, morning", none⟩ =
      (⟨200, .saved "Draft saved successfully"
          { _id := 7, user_id := 10, title := "T", tags := ["yoga", "morning"],
            json_file_url := "", status := "draft", createdAt := 100, updatedAt := 100 }⟩,
        { exStore with sessions := exStore.sessions ++
            [{ _id := 7, user_id := 10, title := "T", tags := ["yoga", "morning"],
               json_file_url := "", status := "draft", createdAt := 100,
               updatedAt := 100 }] }) := by
  refine ⟨?_, ?_, by decide⟩
  · obtain ⟨pieces, _, huniq, hcreate, _, _⟩ :=
      tags_split_trim_filter exEnv exStore 10
        ⟨none, some "T", some "yoga, morning", none⟩ "T" "yoga, morning" rfl
        (by decide) rfl
    have hp := huniq ["yoga", " morning"] (by decide) (by decide) (by decide)
    rw [← hp] at hcreate
    exact (hcreate (Or.inl rfl)).1
  · obtain ⟨pieces, _, huniq, _, hupdate, _⟩ :=
      tags_split_trim_filter exEnv exStore 20
        ⟨some "000000000000000000000002", some "T", some " , ,", none⟩ "T" " , ," rfl
        (by decide) rfl
    have hp := huniq [" ", " ", ""] (by decide) (by decide) (by decide)
    rw [← hp] at hupdate
    exact (hupdate "000000000000000000000002" rfl (by decide)).2

end Arvyax
